import Mathlib

/-!
Verification of the resumable state-trie migrator (pallet `state-trie-migration`).

The development shallowly embeds the pallet's data model and algorithms:
the key-value store with top and child namespaces, the `MigrationTask`
cursor, the one-key `migrate_tick` state machine, the bounded driver
`migrate_until_exhaustion`, and the three signed operations
(`continue_migrate`, `migrate_custom_top`, `migrate_custom_child`).
Byte strings are byte lists; `u32`/balance arithmetic uses explicit
saturation.  Storage reads and writes performed by the migrator are
recorded in an event trace so that touch-completeness properties can be
stated and proved.
-/

namespace STM

/-- Keys of the store are opaque byte strings (bytes as naturals). -/
abbrev Key := List Nat

/-- Values of the store are byte strings. -/
abbrev Value := List Nat

/-! ### Lexicographic byte-string order

The host store's `next_key` contract orders keys lexicographically, with a
proper initial segment ordered before its extensions (Rust byte-slice
order). -/

/-- Strict lexicographic order on byte strings. -/
def keyLtB : List Nat → List Nat → Bool
  | _, [] => false
  | [], _ :: _ => true
  | a :: as, b :: bs => decide (a < b) || (decide (a = b) && keyLtB as bs)

/-! ### Association-list maps

The host key-value store is embedded as association lists: a `get` takes
the first matching binding, a `set` replaces the first matching binding or
appends a fresh one. -/

/-- Look up the first binding of `k`. -/
def lookupA {κ α : Type} [DecidableEq κ] : List (κ × α) → κ → Option α
  | [], _ => none
  | (k', v) :: t, k => if k' = k then some v else lookupA t k

/-- Insert-or-replace the binding of `k` (Rust `set` semantics). -/
def setA {κ α : Type} [DecidableEq κ] : List (κ × α) → κ → α → List (κ × α)
  | [], k, v => [(k, v)]
  | (k', v') :: t, k, v =>
    if k' = k then (k, v) :: t else (k', v') :: setA t k v

/-! ### The least key above a bound: `next_key` -/

/-- The least element of a list of keys (`none` on the empty list). -/
def listMin : List Key → Option Key
  | [] => none
  | k :: ks =>
    match listMin ks with
    | none => some k
    | some m => some (if keyLtB k m then k else m)

/-- The lexicographically least key of `l` strictly greater than `t`
(the host `next_key` contract). -/
def nextKeyL (l : List Key) (t : Key) : Option Key :=
  listMin (l.filter (fun k => keyLtB t k))

/-! ### Saturating `u32` arithmetic -/

/-- Largest `u32` value. -/
def U32M : Nat := 4294967295

/-- `u32::saturating_add`. -/
def satAdd (a b : Nat) : Nat := min (a + b) U32M

/-- `saturating_inc` on a `u32`. -/
def satInc (a : Nat) : Nat := satAdd a 1

/-! ### The store

A versioned key-value store: a *top* namespace plus child namespaces.  A
child namespace is addressed by the byte string remaining after stripping
the `:child_storage:default:` marker from its child-root top key. -/

structure Store where
  top : List (Key × Value)
  children : List (Key × List (Key × Value))
deriving DecidableEq, Repr

/-- The keys of the top namespace. -/
def topKeys (S : Store) : List Key := S.top.map Prod.fst

/-- `sp_io::storage::get`. -/
def top_get (S : Store) (k : Key) : Option Value := lookupA S.top k

/-- `sp_io::storage::set`. -/
def top_set (S : Store) (k : Key) (v : Value) : Store :=
  { S with top := setA S.top k v }

/-- `sp_io::storage::next_key`. -/
def top_next (S : Store) (k : Key) : Option Key := nextKeyL (topKeys S) k

/-- The child namespace addressed by io-key `r` (empty when absent). -/
def childNS (S : Store) (r : Key) : List (Key × Value) :=
  (lookupA S.children r).getD []

/-- The keys of the child namespace addressed by `r`. -/
def childKeysOf (S : Store) (r : Key) : List Key := (childNS S r).map Prod.fst

/-- `sp_io::default_child_storage::get`. -/
def child_get (S : Store) (r k : Key) : Option Value := lookupA (childNS S r) k

/-- `sp_io::default_child_storage::set`. -/
def child_set (S : Store) (r k : Key) (v : Value) : Store :=
  { S with children := setA S.children r (setA (childNS S r) k v) }

/-- `sp_io::default_child_storage::next_key`. -/
def child_next (S : Store) (r k : Key) : Option Key :=
  nextKeyL (childKeysOf S r) k

/-! ### Child-root keys -/

/-- Test whether `p` is an initial segment of `l`. -/
def isPre : List Nat → List Nat → Bool
  | [], _ => true
  | _ :: _, [] => false
  | a :: as, b :: bs => decide (a = b) && isPre as bs

/-- Bytes of `":child_storage:"` — `well_known_keys::CHILD_STORAGE_KEY_PREFIX`,
the 15-byte prefix common to all child-storage keys. -/
def childMarker : Key :=
  [58, 99, 104, 105, 108, 100, 95, 115, 116, 111, 114, 97, 103, 101, 58]

/-- Bytes of `":child_storage:default:"` — `DEFAULT_CHILD_STORAGE_KEY_PREFIX`,
the marker of `ChildType::ParentKeyId` child tries: the prefix
`migrate_tick` branches on and `ChildType::from_prefixed_key` strips. -/
def defaultMarker : Key :=
  childMarker ++ [100, 101, 102, 97, 117, 108, 116, 58]

/-- `Pallet::child_io_key`: strip the `:child_storage:default:` marker
(via `ChildType::from_prefixed_key`), or `none` for ill-formed roots. -/
def child_io_key (root : Key) : Option Key :=
  if isPre defaultMarker root then some (root.drop defaultMarker.length) else none

/-- `Pallet::child_io_key_or_halt`: as `child_io_key` but falling back to
the empty io-key; the boolean reports whether *halt* was invoked. -/
def child_io_key_or_halt (root : Key) : Key × Bool :=
  match child_io_key root with
  | some k => (k, false)
  | none => ([], true)

/-! ### The migration cursor -/

/-- `MigrationTask`: the migration cursor.  The `dyn_*` fields are
ephemeral (`codec(skip)`): they are zero whenever the task is decoded
from storage or from a transaction. -/
structure MigrationTask where
  current_top : Option Key := some []
  current_child : Option Key := none
  prev_tick_child : Bool := false
  dyn_top_items : Nat := 0
  dyn_child_items : Nat := 0
  dyn_size : Nat := 0
  size : Nat := 0
  top_items : Nat := 0
  child_items : Nat := 0
deriving DecidableEq, Repr

/-- The `Default` cursor: top cursor at the empty key. -/
def defaultTask : MigrationTask := {}

/-- The persisted fields of `MigrationTask`, in encoding order.  This is
what the `MigrationProcess` storage item holds: `codec(skip)` drops the
`dyn_*` counters. -/
structure PersistedTask where
  current_top : Option Key := some []
  current_child : Option Key := none
  prev_tick_child : Bool := false
  size : Nat := 0
  top_items : Nat := 0
  child_items : Nat := 0
deriving DecidableEq, Repr

/-- Encode a task for storage: the ephemeral counters are dropped. -/
def persistTask (t : MigrationTask) : PersistedTask :=
  { current_top := t.current_top, current_child := t.current_child
    prev_tick_child := t.prev_tick_child, size := t.size
    top_items := t.top_items, child_items := t.child_items }

/-- Decode a task from storage: the ephemeral counters come back zero. -/
def loadTask (p : PersistedTask) : MigrationTask :=
  { current_top := p.current_top, current_child := p.current_child
    prev_tick_child := p.prev_tick_child, size := p.size
    top_items := p.top_items, child_items := p.child_items }

/-- `MigrationTask::dyn_total_items`. -/
def dyn_total_items (t : MigrationTask) : Nat :=
  satAdd t.dyn_child_items t.dyn_top_items

/-- `MigrationLimits`. -/
structure MigrationLimits where
  size : Nat
  item : Nat
deriving DecidableEq, Repr

/-- `MigrationTask::exhausted`. -/
def exhausted (t : MigrationTask) (limits : MigrationLimits) : Bool :=
  t.current_top.isNone
    || decide (limits.item ≤ dyn_total_items t)
    || decide (limits.size ≤ t.dyn_size)

/-! ### Storage-access events

Every value read and write performed by the migrator is recorded, so that
touch-completeness can be stated.  (`next_key` probes carry no value and
are not recorded; `halt` marks `child_io_key_or_halt` failing or a logic
error.) -/

inductive Ev where
  | rTop (k : Key) (res : Option Value)
  | wTop (k : Key) (v : Value)
  | rChild (r k : Key) (res : Option Value)
  | wChild (r k : Key) (v : Value)
  | halt
deriving DecidableEq, Repr

/-! ### The tick state machine -/

/-- `MigrationTask::migrate_top`, with the current top key `t` passed in
(the source unwraps `self.current_top`, checked `Some` by the caller). -/
def migrate_top (S : Store) (task : MigrationTask) (t : Key) :
    MigrationTask × Store × List Ev :=
  match top_get S t with
  | some data =>
    ({ task with
        dyn_size := satAdd task.dyn_size data.length
        dyn_top_items := satInc task.dyn_top_items
        current_top := top_next (top_set S t data) t },
      top_set S t data, [.rTop t (some data), .wTop t data])
  | none =>
    ({ task with
        dyn_top_items := satInc task.dyn_top_items
        current_top := top_next S t },
      S, [.rTop t none])

/-- The `halt` marker emitted when `child_io_key_or_halt` kills the auto
limits. -/
def haltEvs (t : Key) : List Ev :=
  if (child_io_key_or_halt t).2 then [.halt] else []

/-- `MigrationTask::migrate_child`, with the current top and child keys
passed in (both checked `Some` by the caller).  `child_io_key_or_halt`
is pure, so naming its result once (as the source does) or re-applying it
is indistinguishable. -/
def migrate_child (S : Store) (task : MigrationTask) (t c : Key) :
    MigrationTask × Store × List Ev :=
  match child_get S (child_io_key_or_halt t).1 c with
  | some data =>
    ({ task with
        dyn_size := satAdd task.dyn_size data.length
        dyn_child_items := satInc task.dyn_child_items
        current_child :=
          child_next (child_set S (child_io_key_or_halt t).1 c data)
            (child_io_key_or_halt t).1 c },
      child_set S (child_io_key_or_halt t).1 c data,
      haltEvs t ++ [.rChild (child_io_key_or_halt t).1 c (some data),
        .wChild (child_io_key_or_halt t).1 c data])
  | none =>
    ({ task with
        dyn_child_items := satInc task.dyn_child_items
        current_child := child_next S (child_io_key_or_halt t).1 c },
      S, haltEvs t ++ [.rChild (child_io_key_or_halt t).1 c none])

/-- `MigrationTask::migrate_tick`: migrate at most one key. -/
def migrate_tick (S : Store) (task : MigrationTask) :
    MigrationTask × Store × List Ev :=
  match task.current_top, task.current_child with
  | some t, some c => migrate_child S task t c
  | some t, none =>
    match isPre defaultMarker t, task.prev_tick_child with
    | false, false => migrate_top S task t
    | true, false =>
      -- descend into the child namespace: probe `&[]`, then `next_key`.
      match child_next S (child_io_key_or_halt t).1 [] with
      | some first_child_key =>
        ({ task with current_child := some first_child_key
                     prev_tick_child := true }, S,
          haltEvs t ++
            [.rChild (child_io_key_or_halt t).1 []
              (child_get S (child_io_key_or_halt t).1 [])])
      | none =>
        ({ task with prev_tick_child := true }, S,
          haltEvs t ++
            [.rChild (child_io_key_or_halt t).1 []
              (child_get S (child_io_key_or_halt t).1 [])])
    | true, true =>
      migrate_top S { task with prev_tick_child := false } t
    | false, true =>
      -- LOGIC ERROR: unreachable code [0]; halt.
      (task, S, [.halt])
  | none, some _ =>
    -- LOGIC ERROR: unreachable code [1]; halt.
    (task, S, [.halt])
  | none, none => (task, S, [])

/-- The cursor after one tick. -/
def tickT (S : Store) (task : MigrationTask) : MigrationTask :=
  (migrate_tick S task).1

/-- The events of one tick. -/
def tickEvs (S : Store) (task : MigrationTask) : List Ev :=
  (migrate_tick S task).2.2

/-- Iterated ticks. -/
def tickN (S : Store) : Nat → MigrationTask → MigrationTask
  | 0, task => task
  | n + 1, task => tickN S n (tickT S task)

/-- The concatenated events of `n` ticks. -/
def traceN (S : Store) : Nat → MigrationTask → List Ev
  | 0, _ => []
  | n + 1, task => tickEvs S task ++ traceN S n (tickT S task)

/-! ### The bounded driver -/

/-- The driver loop body of `migrate_until_exhaustion`: tick, stop when
`exhausted`.  The Rust loop is unbounded; `fuel` bounds the recursion and
`none` models an invocation that has not stopped within `fuel` ticks.
The result carries the final task, the store, the recorded events, and
the number of ticks executed. -/
def driverLoop (limits : MigrationLimits) :
    Nat → Store → MigrationTask → Option (MigrationTask × Store × List Ev × Nat)
  | 0, _, _ => none
  | fuel + 1, S, task =>
    let r := migrate_tick S task
    if exhausted r.1 limits then some (r.1, r.2.1, r.2.2, 1)
    else
      match driverLoop limits fuel r.2.1 r.1 with
      | none => none
      | some (t', S', evs, n) => some (t', S', r.2.2 ++ evs, n + 1)

/-- `MigrationTask::migrate_until_exhaustion`: zero limits are a no-op;
otherwise run the loop and fold the dynamic counters into the lifetime
totals. -/
def migrate_until_exhaustion (limits : MigrationLimits) (fuel : Nat)
    (S : Store) (task : MigrationTask) :
    Option (MigrationTask × Store × List Ev × Nat) :=
  if limits.item = 0 ∨ limits.size = 0 then some (task, S, [], 0)
  else
    match driverLoop limits fuel S task with
    | none => none
    | some (t', S', evs, n) =>
      some ({ t' with
          size := satAdd t'.size t'.dyn_size
          child_items := satAdd t'.child_items t'.dyn_child_items
          top_items := satAdd t'.top_items t'.dyn_top_items }, S', evs, n)

/-- The byte length of the value read (and accumulated into `dyn_size`)
by the tick fired from `task`; zero for ticks that accumulate nothing. -/
def tick_read_bytes (S : Store) (task : MigrationTask) : Nat :=
  match task.current_top, task.current_child with
  | some t, some c =>
    match child_get S (child_io_key_or_halt t).1 c with
    | some data => data.length
    | none => 0
  | some t, none =>
    match isPre defaultMarker t, task.prev_tick_child with
    | false, false =>
      match top_get S t with
      | some data => data.length
      | none => 0
    | true, true =>
      match top_get S t with
      | some data => data.length
      | none => 0
    | _, _ => 0
  | _, _ => 0

/-! ### Concrete example stores -/

/-- A valid child-root top key whose namespace io-key is `[1]`. -/
def oKey : Key := defaultMarker ++ [1]

/-- A store with one child-root top key and one child entry. -/
def exStore : Store :=
  { top := [(oKey, [7])], children := [([1], [([2], [5])])] }

/-- The task produced by exhausting `exStore` in one invocation. -/
def exRunTask : MigrationTask :=
  { current_top := none, current_child := none, prev_tick_child := false
    dyn_top_items := 2, dyn_child_items := 1, dyn_size := 2
    size := 2, top_items := 2, child_items := 1 }

/-- The event trace of exhausting `exStore` in one invocation. -/
def exRunEvs : List Ev :=
  [.rTop [] none, .rChild [1] [] none, .rChild [1] [2] (some [5]),
    .wChild [1] [2] [5], .rTop oKey (some [7]), .wTop oKey [7]]

/-! ### Cursor order: monotonicity of ticks (C6) -/

/-- Order on optional keys with `absent` as plus infinity. -/
def optLtB (x y : Option Key) : Bool :=
  match x, y with
  | some a, some b => keyLtB a b
  | some _, none => true
  | none, _ => false

/-- The cursor pair of a task. -/
def cursorPair (t : MigrationTask) : Option Key × Option Key :=
  (t.current_top, t.current_child)

/-- Lexicographic order on cursor pairs, `absent` = plus infinity in each
position. -/
def pairLtB (p q : Option Key × Option Key) : Bool :=
  optLtB p.1 q.1 || (decide (p.1 = q.1) && optLtB p.2 q.2)

/-! ### Termination of tick iteration (C2) -/

/-- Decidable equality for dispatch results. -/
instance {e a : Type} [DecidableEq e] [DecidableEq a] :
    DecidableEq (Except e a) := fun x y =>
  match x, y with
  | .ok u, .ok v =>
    if h : u = v then isTrue (by rw [h]) else isFalse (fun he => h (by cases he; rfl))
  | .error u, .error v =>
    if h : u = v then isTrue (by rw [h]) else isFalse (fun he => h (by cases he; rfl))
  | .ok _, .error _ => isFalse (fun he => by cases he)
  | .error _, .ok _ => isFalse (fun he => by cases he)

/-- Largest `u128` value (balances saturate here). -/
def U128M : Nat := 340282366920938463463374607431768211455

/-- `saturating_mul` on balances. -/
def satMulB (a b : Nat) : Nat := min (a * b) U128M

/-- `saturating_add` on balances. -/
def satAddB (a b : Nat) : Nat := min (a + b) U128M

/-- `MigrationCompute`. -/
inductive MigrationCompute where
  | Signed
  | Auto
deriving DecidableEq, Repr

/-- The pallet's events. -/
inductive PalletEvent where
  | Migrated (top child : Nat) (compute : MigrationCompute)
  | Slashed (who amount : Nat)
deriving DecidableEq, Repr

/-- The pallet state. -/
structure PalletState where
  store : Store
  migrationProcess : PersistedTask
  balances : List (Nat × Nat)
  events : List PalletEvent
deriving DecidableEq, Repr

/-- Configuration constants supplied by the runtime. -/
structure PalletConfig where
  SignedDepositPerItem : Nat
  SignedDepositBase : Nat
  SignedMigrationMaxLimits : MigrationLimits
deriving DecidableEq, Repr

/-- The free balance of an account. -/
def freeBalance (st : PalletState) (who : Nat) : Nat :=
  (lookupA st.balances who).getD 0

/-- `Currency::can_slash`. -/
def can_slash (st : PalletState) (who amt : Nat) : Bool :=
  decide (amt ≤ freeBalance st who)

/-- `Currency::slash`: confiscate up to `amt` from `who`. -/
def slashBal (st : PalletState) (who amt : Nat) : PalletState :=
  { st with balances := (setA st.balances who
      (freeBalance st who - min (freeBalance st who) amt)) }

/-- `Pallet::continue_migrate`.  `fuel` bounds the inner driver loop;
`none` models an invocation whose driver loop has not stopped within
`fuel` ticks.  The origin check is outside the model: `who` is the
signed caller. -/
def continue_migrate (cfg : PalletConfig) (fuel : Nat) (who : Nat)
    (limits : MigrationLimits) (real_size_upper : Nat)
    (witness_task : MigrationTask) (st : PalletState) :
    Option (PalletState × Except String Unit) :=
  if limits.size ≤ cfg.SignedMigrationMaxLimits.size ∧
      limits.item ≤ cfg.SignedMigrationMaxLimits.item then
    if can_slash st who (satMulB cfg.SignedDepositPerItem limits.item) then
      if loadTask st.migrationProcess = witness_task then
        match migrate_until_exhaustion limits fuel st.store
            (loadTask st.migrationProcess) with
        | none => none
        | some (task', S', _evs, _n) =>
          if real_size_upper < task'.dyn_size then
            some ({ slashBal st who
                (satMulB cfg.SignedDepositPerItem limits.item) with
                store := S' }, .error "wrong witness data")
          else
            some ({ st with
                store := S',
                migrationProcess := persistTask task',
                events := (st.events ++ [.Migrated task'.dyn_top_items
                  task'.dyn_child_items .Signed]) }, .ok ())
      else some (st, .error "wrong witness")
    else some (st, .error "not enough funds")
  else some (st, .error "max signed limits not respected")

/-- The key loop of `Pallet::migrate_custom_top`: touch each listed top
key, accumulating read bytes. -/
def migrate_custom_top_loop : List Key → Store → Nat → Store × Nat
  | [], S, d => (S, d)
  | k :: ks, S, d =>
    match top_get S k with
    | some data =>
      migrate_custom_top_loop ks (top_set S k data) (satAdd d data.length)
    | none => migrate_custom_top_loop ks S d

/-- `Pallet::migrate_custom_top`. -/
def migrate_custom_top (cfg : PalletConfig) (who : Nat) (keys : List Key)
    (witness_size : Nat) (st : PalletState) :
    PalletState × Except String Unit :=
  if can_slash st who (satAddB cfg.SignedDepositBase
      (satMulB cfg.SignedDepositPerItem keys.length)) then
    if witness_size < (migrate_custom_top_loop keys st.store 0).2 then
      ({ slashBal st who (satAddB cfg.SignedDepositBase
          (satMulB cfg.SignedDepositPerItem keys.length)) with
          store := (migrate_custom_top_loop keys st.store 0).1 },
        .error "wrong witness data")
    else
      ({ st with
          store := (migrate_custom_top_loop keys st.store 0).1,
          events := (st.events ++ [.Migrated keys.length 0 .Signed]) },
        .ok ())
  else (st, .error "not enough funds")

/-- The key loop of `Pallet::migrate_custom_child`: each iteration
validates the root (`child_io_key(...).ok_or("bad child key")?`) before
its read, so an ill-formed root aborts at the first listed key, before
touching anything — and is never checked when the list is empty. -/
def migrate_custom_child_loop (tk : Key) :
    List Key → Store → Nat → Option (Store × Nat)
  | [], S, d => some (S, d)
  | ck :: cks, S, d =>
    match child_io_key tk with
    | none => none
    | some root =>
      match child_get S root ck with
      | some data =>
        migrate_custom_child_loop tk cks (child_set S root ck data)
          (satAdd d data.length)
      | none => migrate_custom_child_loop tk cks S d

/-- `Pallet::migrate_custom_child`. -/
def migrate_custom_child (cfg : PalletConfig) (who : Nat) (top_key : Key)
    (child_keys : List Key) (total_size : Nat) (st : PalletState) :
    PalletState × Except String Unit :=
  if can_slash st who (satAddB cfg.SignedDepositBase
      (satMulB cfg.SignedDepositPerItem child_keys.length)) then
    match migrate_custom_child_loop top_key child_keys st.store 0 with
    | none => (st, .error "bad child key")
    | some r =>
      if r.2 ≠ total_size then
        ({ slashBal { st with store := r.1 } who
            (satAddB cfg.SignedDepositBase
              (satMulB cfg.SignedDepositPerItem child_keys.length)) with
            events := (st.events ++ [.Slashed who
              (satAddB cfg.SignedDepositBase
                (satMulB cfg.SignedDepositPerItem child_keys.length))]) },
          .error "bad witness")
      else
        ({ st with
            store := r.1,
            events := (st.events ++ [.Migrated 0 child_keys.length .Signed]) },
          .ok ())
  else (st, .error "not enough funds")

/-! ### Claims about the operations -/

/-- The mock runtime's configuration: deposit 1 per item, base 5, signed
limits capped at `(size 1024, item 5)`. -/
def mockConfig : PalletConfig := ⟨1, 5, ⟨1024, 5⟩⟩

/-- A pallet state over `exStore` with caller 1 holding 1000 units. -/
def mockState : PalletState :=
  { store := exStore, migrationProcess := {}, balances := [(1, 1000)]
    events := [] }

/-- A witness task whose persisted fields match the default stored cursor
but whose ephemeral `dyn_top_items` is 1. -/
def dynWitness : MigrationTask :=
  { loadTask {} with dyn_top_items := 1 }

/-- An ill-formed child-root key: it does not carry the
`:child_storage:default:` marker. -/
def badKey : Key := [9]

/-- A state whose top namespace holds one two-byte value under key `[1]`. -/
def c8State : PalletState :=
  { store := { top := [([1], [9, 9])], children := [] }
    migrationProcess := {}, balances := [(1, 1000)], events := [] }

/-! ### Touch-completeness: event filters and expected touches (C1) -/

/-- Non-strict lexicographic order. -/
def keyLeB (a b : Key) : Bool := !(keyLtB b a)

/-- Does the event touch top key `k`? -/
def touchTopB (k : Key) : Ev → Bool
  | .rTop k' _ => decide (k' = k)
  | .wTop k' _ => decide (k' = k)
  | _ => false

/-- Does the event touch key `k` of child namespace `r`? -/
def touchChildB (r k : Key) : Ev → Bool
  | .rChild r' k' _ => decide (r' = r) && decide (k' = k)
  | .wChild r' k' _ => decide (r' = r) && decide (k' = k)
  | _ => false

/-- The full touch of top key `k`: one read, and the write-back of the
value read when one is present. -/
def fullTopTouch (S : Store) (k : Key) : List Ev :=
  match top_get S k with
  | some v => [.rTop k (some v), .wTop k v]
  | none => [.rTop k none]

/-- The full touch of child key `k` in namespace `r`. -/
def fullChildTouch (S : Store) (r k : Key) : List Ev :=
  match child_get S r k with
  | some v => [.rChild r k (some v), .wChild r k v]
  | none => [.rChild r k none]

/-- The single descent probe of namespace `r`: the empty key is read and
its value discarded — never written back. -/
def probeTouch (S : Store) (r : Key) : List Ev :=
  [.rChild r [] (child_get S r [])]

/-- All events namespace `r` will ever see at child key `ck`, when its
walk has not started: the probe for the empty key, the full touch for
the other present keys, nothing else. -/
def childAllPending (S : Store) (r ck : Key) : List Ev :=
  if decide (ck = ([] : Key)) then probeTouch S r
  else if decide (ck ∈ childKeysOf S r) then fullChildTouch S r ck
  else []

/-- The events still to be recorded for top key `k` from the cursor
state: a full touch for every key at or above the cursor. -/
def topFilterExp (S : Store) (task : MigrationTask) (k : Key) : List Ev :=
  match task.current_top with
  | none => []
  | some t =>
    if keyLeB t k && (decide (k ∈ topKeys S) || decide (k = t)) then
      fullTopTouch S k
    else []

/-- The events still to be recorded for child key `ck` of namespace `r`
from the cursor state: everything while the owning child-root top key
`defaultMarker ++ r` is ahead of the cursor, a suffix while it is being
walked, nothing once it is passed. -/
def childFilterExp (S : Store) (task : MigrationTask) (r ck : Key) : List Ev :=
  match task.current_top with
  | none => []
  | some t =>
    if decide ((defaultMarker ++ r) ∈ topKeys S) then
      if keyLtB t (defaultMarker ++ r) then childAllPending S r ck
      else if decide (defaultMarker ++ r = t) then
        match task.current_child, task.prev_tick_child with
        | none, false => childAllPending S r ck
        | none, true => []
        | some c, _ =>
          if decide (ck = ([] : Key)) then []
          else if keyLeB c ck && decide (ck ∈ childKeysOf S r) then
            fullChildTouch S r ck
          else []
      else []
    else []

/-- Well-formed store: every nonempty child namespace has its owning
child-root key in the top namespace, and every child-marker-prefixed top
key is a well-formed default child root. -/
structure WFStore (S : Store) : Prop where
  owner_present : ∀ r, childNS S r ≠ [] →
    (defaultMarker ++ r) ∈ topKeys S
  marker_default : ∀ k, k ∈ topKeys S → isPre childMarker k = true →
    isPre defaultMarker k = true

/-- The reachability invariant of migration cursors over a well-formed
store. -/
structure InvC1 (S : Store) (task : MigrationTask) : Prop where
  top_absent : task.current_top = none → task.current_child = none
  top_marker : ∀ t, task.current_top = some t →
    isPre childMarker t = true →
    isPre defaultMarker t = true ∧ t ∈ topKeys S
  child_mem : ∀ c, task.current_child = some c →
    task.prev_tick_child = true ∧ c ≠ [] ∧
    ∃ t, task.current_top = some t ∧
      c ∈ childKeysOf S (child_io_key_or_halt t).1
  prev_root : task.prev_tick_child = true →
    ∃ t, task.current_top = some t ∧ isPre defaultMarker t = true ∧
      t ∈ topKeys S

/-- A sequence of bounded-driver invocations, each feeding its final task
and store into the next; the traces are concatenated. -/
def runSeq : List (MigrationLimits × Nat) → Store → MigrationTask →
    Option (MigrationTask × Store × List Ev)
  | [], S, task => some (task, S, [])
  | (l, f) :: rest, S, task =>
    match migrate_until_exhaustion l f S task with
    | none => none
    | some (t', S', evs, _) =>
      match runSeq rest S' t' with
      | none => none
      | some (t2, S2, evs2) => some (t2, S2, evs ++ evs2)

/-- A store whose only child namespace contains the empty key. -/
def emptyChildStore : Store :=
  { top := [(oKey, [7])], children := [([1], [([], [5, 5])])] }

@[simp] theorem keyLt_nil_right (l : List Nat) : keyLtB l [] = false := by
  cases l <;> rfl

@[simp] theorem keyLt_nil_left_cons (b : Nat) (bs : List Nat) :
    keyLtB [] (b :: bs) = true := rfl

theorem keyLt_nil_left_iff (l : List Nat) : keyLtB [] l = true ↔ l ≠ [] := by
  cases l <;> simp [keyLtB]

@[simp] theorem keyLt_irrefl (l : List Nat) : keyLtB l l = false := by
  induction l with
  | nil => rfl
  | cons a as ih => simp [keyLtB, ih]

theorem keyLt_trans : ∀ {a b c : List Nat},
    keyLtB a b = true → keyLtB b c = true → keyLtB a c = true := by
  intro a
  induction a with
  | nil =>
    intro b c hab hbc
    cases c with
    | nil => rw [keyLt_nil_right] at hbc; cases hbc
    | cons c cs => rfl
  | cons a as ih =>
    intro b c hab hbc
    cases b with
    | nil => rw [keyLt_nil_right] at hab; cases hab
    | cons b bs =>
      cases c with
      | nil => rw [keyLt_nil_right] at hbc; cases hbc
      | cons c cs =>
        simp only [keyLtB, Bool.or_eq_true, Bool.and_eq_true,
          decide_eq_true_eq] at hab hbc ⊢
        rcases hab with hab | ⟨rfl, hab⟩
        · rcases hbc with hbc | ⟨rfl, hbc⟩
          · exact Or.inl (Nat.lt_trans hab hbc)
          · exact Or.inl hab
        · rcases hbc with hbc | ⟨rfl, hbc⟩
          · exact Or.inl hbc
          · exact Or.inr ⟨rfl, ih hab hbc⟩

theorem keyLt_asymm {a b : List Nat} (h : keyLtB a b = true) :
    keyLtB b a = false := by
  by_contra hc
  rw [Bool.not_eq_false] at hc
  have := keyLt_trans h hc
  rw [keyLt_irrefl] at this
  cases this

/-- Trichotomy for the lexicographic order. -/
theorem keyLt_conn : ∀ (a b : List Nat),
    a = b ∨ keyLtB a b = true ∨ keyLtB b a = true := by
  intro a
  induction a with
  | nil =>
    intro b
    cases b with
    | nil => exact Or.inl rfl
    | cons b bs => exact Or.inr (Or.inl rfl)
  | cons a as ih =>
    intro b
    cases b with
    | nil => exact Or.inr (Or.inr rfl)
    | cons b bs =>
      rcases Nat.lt_trichotomy a b with h | h | h
      · refine Or.inr (Or.inl ?_)
        simp [keyLtB, h]
      · subst h
        rcases ih bs with h' | h' | h'
        · exact Or.inl (by rw [h'])
        · exact Or.inr (Or.inl (by simp [keyLtB, h']))
        · exact Or.inr (Or.inr (by simp [keyLtB, h']))
      · exact Or.inr (Or.inr (by simp [keyLtB, h]))

theorem keyLt_of_not_eq_of_not_gt {a b : List Nat}
    (h1 : a ≠ b) (h2 : keyLtB b a = false) : keyLtB a b = true := by
  rcases keyLt_conn a b with h | h | h
  · exact absurd h h1
  · exact h
  · rw [h] at h2; cases h2

/-- Writing back the value just read leaves the list untouched.  This is
the formal content of a "touch": the store content is invariant. -/
theorem setA_self {κ α : Type} [DecidableEq κ] :
    ∀ (l : List (κ × α)) (k : κ) (v : α),
      lookupA l k = some v → setA l k v = l := by
  intro l
  induction l with
  | nil => intro k v h; cases h
  | cons p t ih =>
    intro k v h
    obtain ⟨k', v'⟩ := p
    by_cases hk : k' = k
    · subst hk
      simp [lookupA] at h
      simp [setA, h]
    · simp [lookupA, hk] at h
      simp [setA, hk, ih k v h]

theorem lookupA_mem_fst {κ α : Type} [DecidableEq κ] :
    ∀ {l : List (κ × α)} {k : κ},
      k ∈ l.map Prod.fst → ∃ v, lookupA l k = some v := by
  intro l
  induction l with
  | nil => intro k h; simp at h
  | cons p t ih =>
    intro k h
    obtain ⟨k', v'⟩ := p
    by_cases hk : k' = k
    · exact ⟨v', by simp [lookupA, hk]⟩
    · have h' : k ∈ t.map Prod.fst := by
        rcases List.mem_cons.mp h with h | h
        · exact absurd h.symm hk
        · exact h
      simpa [lookupA, hk] using ih h'

theorem lookupA_some_mem_fst {κ α : Type} [DecidableEq κ] :
    ∀ {l : List (κ × α)} {k : κ} {v : α},
      lookupA l k = some v → k ∈ l.map Prod.fst := by
  intro l
  induction l with
  | nil => intro k v h; cases h
  | cons p t ih =>
    intro k v h
    obtain ⟨k', v'⟩ := p
    by_cases hk : k' = k
    · simp [hk]
    · simp [lookupA, hk] at h
      simp [ih h]

theorem listMin_mem : ∀ {l : List Key} {m : Key}, listMin l = some m → m ∈ l := by
  intro l
  induction l with
  | nil => intro m h; cases h
  | cons k ks ih =>
    intro m h
    simp only [listMin] at h
    cases hks : listMin ks with
    | none => rw [hks] at h; simp at h; simp [h]
    | some m0 =>
      rw [hks] at h
      simp at h
      by_cases hlt : keyLtB k m0 = true
      · rw [if_pos hlt] at h; simp [← h]
      · rw [if_neg hlt] at h
        subst h
        simp [ih hks]

theorem listMin_none : ∀ {l : List Key}, listMin l = none → l = [] := by
  intro l h
  cases l with
  | nil => rfl
  | cons k ks =>
    simp only [listMin] at h
    cases hks : listMin ks with
    | none => rw [hks] at h; cases h
    | some m => rw [hks] at h; cases h

theorem listMin_le : ∀ {l : List Key} {m : Key}, listMin l = some m →
    ∀ x ∈ l, keyLtB x m = false := by
  intro l
  induction l with
  | nil => intro m h; cases h
  | cons k ks ih =>
    intro m h x hx
    simp only [listMin] at h
    cases hks : listMin ks with
    | none =>
      rw [hks] at h; simp at h
      subst h
      have hempty := listMin_none hks
      subst hempty
      rcases List.mem_cons.mp hx with rfl | hx
      · exact keyLt_irrefl x
      · simp at hx
    | some m0 =>
      rw [hks] at h
      simp at h
      rcases List.mem_cons.mp hx with rfl | hx
      · by_cases hlt : keyLtB x m0 = true
        · rw [if_pos hlt] at h; subst h; exact keyLt_irrefl x
        · rw [if_neg hlt] at h; subst h
          exact Bool.eq_false_iff.mpr (fun hc => by
            rcases keyLt_conn x m0 with he | hl | hl
            · rw [he] at hc; rw [keyLt_irrefl] at hc; cases hc
            · exact hlt hl
            · rw [keyLt_asymm hl] at hc; cases hc)
      · have hxm0 := ih hks x hx
        by_cases hlt : keyLtB k m0 = true
        · rw [if_pos hlt] at h; subst h
          by_contra hc
          rw [Bool.not_eq_false] at hc
          have := keyLt_trans hc hlt
          rw [hxm0] at this; cases this
        · rw [if_neg hlt] at h; subst h; exact hxm0

theorem nextKeyL_some_mem {l : List Key} {t m : Key}
    (h : nextKeyL l t = some m) : m ∈ l ∧ keyLtB t m = true := by
  have := listMin_mem h
  simpa using List.mem_filter.mp this

theorem nextKeyL_min {l : List Key} {t m : Key}
    (h : nextKeyL l t = some m) :
    ∀ x ∈ l, keyLtB t x = true → keyLtB x m = false := by
  intro x hx htx
  exact listMin_le h x (List.mem_filter.mpr ⟨hx, htx⟩)

theorem nextKeyL_none {l : List Key} {t : Key}
    (h : nextKeyL l t = none) : ∀ x ∈ l, keyLtB t x = false := by
  intro x hx
  have : l.filter (fun k => keyLtB t k) = [] := listMin_none h
  by_contra hc
  rw [Bool.not_eq_false] at hc
  have : x ∈ l.filter (fun k => keyLtB t k) := List.mem_filter.mpr ⟨hx, hc⟩
  simp_all

/-- Zone transfer: advancing the cursor from `t` to its successor `m`
splits the keys strictly above `t` into `m` itself and those above `m`. -/
theorem nextKeyL_zone {l : List Key} {t m : Key}
    (h : nextKeyL l t = some m) {k : Key} (hk : k ∈ l) :
    (keyLtB t k = true) ↔ (keyLtB m k = true ∨ m = k) := by
  constructor
  · intro htk
    have := nextKeyL_min h k hk htk
    rcases keyLt_conn m k with he | hl | hl
    · exact Or.inr he
    · exact Or.inl hl
    · rw [hl] at this; cases this
  · intro hmk
    have htm := (nextKeyL_some_mem h).2
    rcases hmk with hmk | rfl
    · exact keyLt_trans htm hmk
    · exact htm

/-! ### Counting helpers for termination measures -/

theorem length_filter_lt_of_wit {α : Type} (l : List α) (p : α → Bool)
    (x : α) (hx : x ∈ l) (hpx : p x = false) :
    (l.filter p).length < l.length := by
  induction l with
  | nil => simp at hx
  | cons a t ih =>
    rcases List.mem_cons.mp hx with rfl | hx
    · simp only [List.filter, hpx]
      calc (t.filter p).length ≤ t.length := t.length_filter_le p
        _ < t.length + 1 := Nat.lt_succ_self _
    · by_cases hp : p a = true
      · simp only [List.filter, hp, List.length_cons]
        exact Nat.succ_lt_succ (ih hx)
      · rw [Bool.not_eq_true] at hp
        simp only [List.filter, hp]
        calc (t.filter p).length < t.length := ih hx
          _ < t.length + 1 := Nat.lt_succ_self _

theorem satAdd_le_add (a b : Nat) : satAdd a b ≤ a + b := by
  simp [satAdd]

theorem satAdd_mono {a b a' b' : Nat} (ha : a ≤ a') (hb : b ≤ b') :
    satAdd a b ≤ satAdd a' b' := by
  simp only [satAdd]
  omega

theorem top_set_self {S : Store} {k : Key} {v : Value}
    (h : top_get S k = some v) : top_set S k v = S := by
  have := setA_self S.top k v h
  simp [top_set, this]

theorem child_set_self {S : Store} {r k : Key} {v : Value}
    (h : child_get S r k = some v) : child_set S r k v = S := by
  unfold child_get childNS at h
  cases hns : lookupA S.children r with
  | none => rw [hns] at h; simp [lookupA] at h
  | some ns =>
    rw [hns] at h
    simp at h
    have h1 : setA ns k v = ns := setA_self ns k v h
    have h2 : setA S.children r ns = S.children := setA_self S.children r ns hns
    simp [child_set, childNS, hns, h1, h2]

theorem top_set_keys {S : Store} {k : Key} {v : Value}
    (h : top_get S k = some v) : topKeys (top_set S k v) = topKeys S := by
  rw [top_set_self h]

theorem isPre_append (p l : List Nat) : isPre p (p ++ l) = true := by
  induction p with
  | nil => rfl
  | cons a as ih => simp [isPre, ih]

theorem isPre_iff_append {p l : List Nat} :
    isPre p l = true ↔ ∃ s, l = p ++ s := by
  constructor
  · intro h
    induction p generalizing l with
    | nil => exact ⟨l, rfl⟩
    | cons a as ih =>
      cases l with
      | nil => simp [isPre] at h
      | cons b bs =>
        simp only [isPre, Bool.and_eq_true, decide_eq_true_eq] at h
        obtain ⟨rfl, h⟩ := h
        obtain ⟨s, rfl⟩ := ih h
        exact ⟨s, rfl⟩
  · rintro ⟨s, rfl⟩
    exact isPre_append p s

theorem childMarker_of_defaultMarker {t : Key}
    (h : isPre defaultMarker t = true) : isPre childMarker t = true := by
  obtain ⟨s, rfl⟩ := isPre_iff_append.mp h
  rw [defaultMarker, List.append_assoc]
  exact isPre_append childMarker _

theorem child_io_key_append (r : Key) :
    child_io_key (defaultMarker ++ r) = some r := by
  simp [child_io_key, isPre_append]

theorem child_io_key_eq_some {t : Key} (h : isPre defaultMarker t = true) :
    child_io_key t = some (t.drop defaultMarker.length) := by
  simp [child_io_key, h]

theorem tickN_succ_out (S : Store) (n : Nat) (task : MigrationTask) :
    tickN S (n + 1) task = tickN S n (tickT S task) := rfl

/-! ### A tick writes back exactly what it read: the store is invariant -/

theorem migrate_top_store (S : Store) (task : MigrationTask) (t : Key) :
    (migrate_top S task t).2.1 = S := by
  unfold migrate_top
  cases h : top_get S t with
  | none => rfl
  | some data => simp [top_set_self h]

theorem migrate_child_store (S : Store) (task : MigrationTask) (t c : Key) :
    (migrate_child S task t c).2.1 = S := by
  unfold migrate_child
  cases h : child_get S (child_io_key_or_halt t).1 c with
  | none => rfl
  | some data => simp [child_set_self h]

theorem migrate_tick_store (S : Store) (task : MigrationTask) :
    (migrate_tick S task).2.1 = S := by
  obtain ⟨ct, cc, pv, d1, d2, d3, s1, s2, s3⟩ := task
  cases ct with
  | none =>
    cases cc with
    | none => rfl
    | some c => rfl
  | some t =>
    cases cc with
    | some c => exact migrate_child_store S _ t c
    | none =>
      cases hcr : isPre defaultMarker t with
      | false =>
        cases pv with
        | false =>
          simp only [migrate_tick, hcr]
          exact migrate_top_store S _ t
        | true => simp only [migrate_tick, hcr]
      | true =>
        cases pv with
        | false =>
          simp only [migrate_tick, hcr]
          cases hn : child_next S (child_io_key_or_halt t).1 [] with
          | some k => simp only [hn]
          | none => simp only [hn]
        | true =>
          simp only [migrate_tick, hcr]
          exact migrate_top_store S _ t

/-! ### Branch equations for `migrate_top`, `migrate_child`, `migrate_tick` -/

theorem migrate_top_eq_some (S : Store) (task : MigrationTask) (t : Key)
    (data : Value) (h : top_get S t = some data) :
    migrate_top S task t =
      ({ task with
          dyn_size := satAdd task.dyn_size data.length
          dyn_top_items := satInc task.dyn_top_items
          current_top := top_next S t },
        S, [.rTop t (some data), .wTop t data]) := by
  simp only [migrate_top, h, top_set_self h]

theorem migrate_top_eq_none (S : Store) (task : MigrationTask) (t : Key)
    (h : top_get S t = none) :
    migrate_top S task t =
      ({ task with
          dyn_top_items := satInc task.dyn_top_items
          current_top := top_next S t },
        S, [.rTop t none]) := by
  simp only [migrate_top, h]

theorem migrate_child_eq_some (S : Store) (task : MigrationTask) (t c : Key)
    (data : Value) (h : child_get S (child_io_key_or_halt t).1 c = some data) :
    migrate_child S task t c =
      ({ task with
          dyn_size := satAdd task.dyn_size data.length
          dyn_child_items := satInc task.dyn_child_items
          current_child := child_next S (child_io_key_or_halt t).1 c },
        S, haltEvs t ++ [.rChild (child_io_key_or_halt t).1 c (some data),
          .wChild (child_io_key_or_halt t).1 c data]) := by
  simp only [migrate_child, h, child_set_self h]

theorem migrate_child_eq_none (S : Store) (task : MigrationTask) (t c : Key)
    (h : child_get S (child_io_key_or_halt t).1 c = none) :
    migrate_child S task t c =
      ({ task with
          dyn_child_items := satInc task.dyn_child_items
          current_child := child_next S (child_io_key_or_halt t).1 c },
        S, haltEvs t ++ [.rChild (child_io_key_or_halt t).1 c none]) := by
  simp only [migrate_child, h]

theorem tick_eq_walk (S : Store) (task : MigrationTask) (t c : Key)
    (h1 : task.current_top = some t) (h2 : task.current_child = some c) :
    migrate_tick S task = migrate_child S task t c := by
  simp only [migrate_tick, h1, h2]

theorem tick_eq_top (S : Store) (task : MigrationTask) (t : Key)
    (h1 : task.current_top = some t) (h2 : task.current_child = none)
    (h3 : isPre defaultMarker t = false) (h4 : task.prev_tick_child = false) :
    migrate_tick S task = migrate_top S task t := by
  simp only [migrate_tick, h1, h2, h3, h4]

theorem tick_eq_descend_some (S : Store) (task : MigrationTask) (t c1 : Key)
    (h1 : task.current_top = some t) (h2 : task.current_child = none)
    (h3 : isPre defaultMarker t = true) (h4 : task.prev_tick_child = false)
    (h5 : child_next S (child_io_key_or_halt t).1 [] = some c1) :
    migrate_tick S task =
      ({ task with current_child := some c1, prev_tick_child := true }, S,
        haltEvs t ++ [.rChild (child_io_key_or_halt t).1 []
          (child_get S (child_io_key_or_halt t).1 [])]) := by
  simp only [migrate_tick, h1, h2, h3, h4, h5]

theorem tick_eq_descend_none (S : Store) (task : MigrationTask) (t : Key)
    (h1 : task.current_top = some t) (h2 : task.current_child = none)
    (h3 : isPre defaultMarker t = true) (h4 : task.prev_tick_child = false)
    (h5 : child_next S (child_io_key_or_halt t).1 [] = none) :
    migrate_tick S task =
      ({ task with prev_tick_child := true }, S,
        haltEvs t ++ [.rChild (child_io_key_or_halt t).1 []
          (child_get S (child_io_key_or_halt t).1 [])]) := by
  simp only [migrate_tick, h1, h2, h3, h4, h5]

theorem tick_eq_ascend (S : Store) (task : MigrationTask) (t : Key)
    (h1 : task.current_top = some t) (h2 : task.current_child = none)
    (h3 : isPre defaultMarker t = true) (h4 : task.prev_tick_child = true) :
    migrate_tick S task =
      migrate_top S { task with prev_tick_child := false } t := by
  simp only [migrate_tick, h1, h2, h3, h4]

theorem tick_eq_stuck (S : Store) (task : MigrationTask) (t : Key)
    (h1 : task.current_top = some t) (h2 : task.current_child = none)
    (h3 : isPre defaultMarker t = false) (h4 : task.prev_tick_child = true) :
    migrate_tick S task = (task, S, [.halt]) := by
  simp only [migrate_tick, h1, h2, h3, h4]

theorem tick_eq_logic_err (S : Store) (task : MigrationTask) (c : Key)
    (h1 : task.current_top = none) (h2 : task.current_child = some c) :
    migrate_tick S task = (task, S, [.halt]) := by
  simp only [migrate_tick, h1, h2]

theorem tick_eq_done (S : Store) (task : MigrationTask)
    (h1 : task.current_top = none) (h2 : task.current_child = none) :
    migrate_tick S task = (task, S, []) := by
  simp only [migrate_tick, h1, h2]

theorem driverLoop_spec {limits : MigrationLimits} :
    ∀ {fuel : Nat} {S : Store} {task t' : MigrationTask} {S' : Store}
      {evs : List Ev} {n : Nat},
      driverLoop limits fuel S task = some (t', S', evs, n) →
      S' = S ∧ t' = tickN S n task ∧ evs = traceN S n task ∧ 1 ≤ n := by
  intro fuel
  induction fuel with
  | zero => intro S task t' S' evs n h; cases h
  | succ fuel ih =>
    intro S task t' S' evs n h
    simp only [driverLoop] at h
    by_cases hex : exhausted (migrate_tick S task).1 limits = true
    · rw [if_pos hex] at h
      simp only [Option.some.injEq, Prod.mk.injEq] at h
      obtain ⟨h1, h2, h3, h4⟩ := h
      subst h4
      refine ⟨by rw [← h2, migrate_tick_store], ?_, ?_, le_refl 1⟩
      · rw [← h1]; rfl
      · rw [← h3]
        show (migrate_tick S task).2.2 = tickEvs S task ++ traceN S 0 (tickT S task)
        simp [traceN, tickEvs]
    · rw [if_neg hex] at h
      cases hrec : driverLoop limits fuel (migrate_tick S task).2.1
          (migrate_tick S task).1 with
      | none => rw [hrec] at h; cases h
      | some res =>
        obtain ⟨t'', S'', evs'', n''⟩ := res
        rw [hrec] at h
        simp only [Option.some.injEq, Prod.mk.injEq] at h
        obtain ⟨h1, h2, h3, h4⟩ := h
        rw [migrate_tick_store] at hrec
        obtain ⟨hS, ht, hevs, hn⟩ := ih hrec
        subst h4 h1 h2 h3
        refine ⟨hS, ht, ?_, Nat.le_succ_of_le hn⟩
        rw [hevs]
        rfl

/-! ### Per-tick accounting bounds -/

theorem satAdd_right_inc_le (c t : Nat) : satAdd c (satInc t) ≤ satAdd c t + 1 := by
  simp only [satAdd, satInc, U32M]
  omega

theorem satAdd_left_inc_le (c t : Nat) : satAdd (satInc c) t ≤ satAdd c t + 1 := by
  simp only [satAdd, satInc, U32M]
  omega

/-- Each tick counts at most one item. -/
theorem dyn_total_tick_le (S : Store) (task : MigrationTask) :
    dyn_total_items (tickT S task) ≤ dyn_total_items task + 1 := by
  obtain ⟨ct, cc, pv, d1, d2, d3, s1, s2, s3⟩ := task
  cases ct with
  | none =>
    cases cc with
    | none => exact Nat.le_succ _
    | some c => exact Nat.le_succ _
  | some t =>
    cases cc with
    | some c =>
      show dyn_total_items (migrate_child S _ t c).1 ≤ _
      unfold migrate_child
      cases h : child_get S (child_io_key_or_halt t).1 c with
      | some data => exact satAdd_left_inc_le _ _
      | none => exact satAdd_left_inc_le _ _
    | none =>
      cases hcr : isPre defaultMarker t with
      | false =>
        cases pv with
        | false =>
          simp only [tickT, migrate_tick, hcr]
          unfold migrate_top
          cases h : top_get S t with
          | some data => exact satAdd_right_inc_le _ _
          | none => exact satAdd_right_inc_le _ _
        | true =>
          simp only [tickT, migrate_tick, hcr]
          exact Nat.le_succ _
      | true =>
        cases pv with
        | false =>
          simp only [tickT, migrate_tick, hcr]
          cases hn : child_next S (child_io_key_or_halt t).1 [] with
          | some k => simp only [hn]; exact Nat.le_succ _
          | none => simp only [hn]; exact Nat.le_succ _
        | true =>
          simp only [tickT, migrate_tick, hcr]
          unfold migrate_top
          cases h : top_get S t with
          | some data => exact satAdd_right_inc_le _ _
          | none => exact satAdd_right_inc_le _ _

/-- Each tick grows `dyn_size` by at most the value it read. -/
theorem dyn_size_tick_le (S : Store) (task : MigrationTask) :
    (tickT S task).dyn_size ≤ task.dyn_size + tick_read_bytes S task := by
  obtain ⟨ct, cc, pv, d1, d2, d3, s1, s2, s3⟩ := task
  cases ct with
  | none =>
    cases cc with
    | none => exact Nat.le_add_right _ _
    | some c => exact Nat.le_add_right _ _
  | some t =>
    cases cc with
    | some c =>
      show (migrate_child S _ t c).1.dyn_size ≤ _
      unfold migrate_child tick_read_bytes
      cases h : child_get S (child_io_key_or_halt t).1 c with
      | some data => simp only [h]; exact satAdd_le_add _ _
      | none => simp only [h]; exact Nat.le_add_right _ _
    | none =>
      cases hcr : isPre defaultMarker t with
      | false =>
        cases pv with
        | false =>
          simp only [tickT, migrate_tick, tick_read_bytes, hcr]
          unfold migrate_top
          cases h : top_get S t with
          | some data => simp only [h]; exact satAdd_le_add _ _
          | none => simp only [h]; exact Nat.le_add_right _ _
        | true =>
          simp only [tickT, migrate_tick, hcr]
          exact Nat.le_add_right _ _
      | true =>
        cases pv with
        | false =>
          simp only [tickT, migrate_tick, hcr]
          cases hn : child_next S (child_io_key_or_halt t).1 [] with
          | some k => simp only [hn]; exact Nat.le_add_right _ _
          | none => simp only [hn]; exact Nat.le_add_right _ _
        | true =>
          simp only [tickT, migrate_tick, tick_read_bytes, hcr]
          unfold migrate_top
          cases h : top_get S t with
          | some data => simp only [h]; exact satAdd_le_add _ _
          | none => simp only [h]; exact Nat.le_add_right _ _

theorem not_exhausted_bounds {task : MigrationTask} {limits : MigrationLimits}
    (h : exhausted task limits = false) :
    dyn_total_items task < limits.item ∧ task.dyn_size < limits.size ∧
      task.current_top ≠ none := by
  simp only [exhausted, Bool.or_eq_false_iff, decide_eq_false_iff_not,
    Option.isNone_eq_false_iff, Option.isSome_iff_ne_none, not_le] at h
  exact ⟨h.1.2, h.2, h.1.1⟩

/-- The item limit is a hard bound across the driver loop. -/
theorem driverLoop_item_bound {limits : MigrationLimits} :
    ∀ {fuel : Nat} {S : Store} {task t' : MigrationTask} {S' : Store}
      {evs : List Ev} {n : Nat},
      dyn_total_items task < limits.item →
      driverLoop limits fuel S task = some (t', S', evs, n) →
      dyn_total_items t' ≤ limits.item := by
  intro fuel
  induction fuel with
  | zero => intro S task t' S' evs n _ h; cases h
  | succ fuel ih =>
    intro S task t' S' evs n h0 h
    simp only [driverLoop] at h
    have hstep : dyn_total_items (migrate_tick S task).1 ≤ limits.item :=
      Nat.le_trans (dyn_total_tick_le S task) h0
    by_cases hex : exhausted (migrate_tick S task).1 limits = true
    · rw [if_pos hex] at h
      simp only [Option.some.injEq, Prod.mk.injEq] at h
      rw [← h.1]
      exact hstep
    · rw [if_neg hex] at h
      cases hrec : driverLoop limits fuel (migrate_tick S task).2.1
          (migrate_tick S task).1 with
      | none => rw [hrec] at h; cases h
      | some res =>
        obtain ⟨t'', S'', evs'', n''⟩ := res
        rw [hrec] at h
        simp only [Option.some.injEq, Prod.mk.injEq] at h
        rw [Bool.not_eq_true] at hex
        have hlt := (not_exhausted_bounds hex).1
        have := ih hlt hrec
        rw [← h.1]
        exact this

/-- The last executed tick of the driver loop started below the size
limit: `dyn_size` can overshoot `limits.size` only by that tick's read. -/
theorem driverLoop_last_tick {limits : MigrationLimits} :
    ∀ {fuel : Nat} {S : Store} {task t' : MigrationTask} {S' : Store}
      {evs : List Ev} {n : Nat},
      task.dyn_size < limits.size →
      driverLoop limits fuel S task = some (t', S', evs, n) →
      ∃ tpre, t' = tickT S tpre ∧ tpre.dyn_size < limits.size := by
  intro fuel
  induction fuel with
  | zero => intro S task t' S' evs n _ h; cases h
  | succ fuel ih =>
    intro S task t' S' evs n h0 h
    simp only [driverLoop] at h
    by_cases hex : exhausted (migrate_tick S task).1 limits = true
    · rw [if_pos hex] at h
      simp only [Option.some.injEq, Prod.mk.injEq] at h
      exact ⟨task, h.1.symm, h0⟩
    · rw [if_neg hex] at h
      cases hrec : driverLoop limits fuel (migrate_tick S task).2.1
          (migrate_tick S task).1 with
      | none => rw [hrec] at h; cases h
      | some res =>
        obtain ⟨t'', S'', evs'', n''⟩ := res
        rw [hrec] at h
        simp only [Option.some.injEq, Prod.mk.injEq] at h
        rw [Bool.not_eq_true] at hex
        have hlt := (not_exhausted_bounds hex).2.1
        rw [migrate_tick_store] at hrec
        obtain ⟨tpre, h1, h2⟩ := ih hlt hrec
        rw [← h.1]
        exact ⟨tpre, h1, h2⟩

/-- C3:  For every limits value and every starting cursor whose ephemeral
counters are zero (as they are at the start of every invocation: the
counters are `codec(skip)` and come back zero from storage), after one
completed bounded-driver invocation the item count
`dyn_top_items + dyn_child_items` never exceeds `limits.item` — the item
limit is a hard bound — while `dyn_size` may exceed `limits.size` by at
most the byte length of the single value read in the last tick: either
`dyn_size` stays within `limits.size`, or the last tick started strictly
below `limits.size` and added at most its own read. -/
theorem C3_item_hard_bound_size_soft (limits : MigrationLimits) (fuel : Nat)
    (S : Store) (task t' : MigrationTask) (S' : Store) (evs : List Ev) (n : Nat)
    (h1 : task.dyn_top_items = 0) (h2 : task.dyn_child_items = 0)
    (h3 : task.dyn_size = 0)
    (h : migrate_until_exhaustion limits fuel S task = some (t', S', evs, n)) :
    dyn_total_items t' ≤ limits.item ∧
      (t'.dyn_size ≤ limits.size ∨
        ∃ tpre, tpre.dyn_size < limits.size ∧
          t'.dyn_size ≤ tpre.dyn_size + tick_read_bytes S tpre) := by
  unfold migrate_until_exhaustion at h
  by_cases hz : limits.item = 0 ∨ limits.size = 0
  · rw [if_pos hz] at h
    simp only [Option.some.injEq, Prod.mk.injEq] at h
    rw [← h.1]
    constructor
    · simp [dyn_total_items, h1, h2, satAdd]
    · exact Or.inl (by simp [h3])
  · rw [if_neg hz] at h
    push_neg at hz
    cases hd : driverLoop limits fuel S task with
    | none => rw [hd] at h; cases h
    | some res =>
      obtain ⟨t'', S'', evs'', n''⟩ := res
      rw [hd] at h
      simp only [Option.some.injEq, Prod.mk.injEq] at h
      have hdyn0 : dyn_total_items task < limits.item := by
        simp only [dyn_total_items, h1, h2, satAdd, U32M]
        omega
      have hsz0 : task.dyn_size < limits.size := by
        rw [h3]; exact Nat.pos_of_ne_zero hz.2
      have hitem := driverLoop_item_bound hdyn0 hd
      obtain ⟨tpre, hpre1, hpre2⟩ := driverLoop_last_tick hsz0 hd
      have hteq : dyn_total_items t' = dyn_total_items t'' := by
        rw [← h.1]; rfl
      have hseq : t'.dyn_size = t''.dyn_size := by
        rw [← h.1]
      constructor
      · rw [hteq]; exact hitem
      · refine Or.inr ⟨tpre, hpre2, ?_⟩
        rw [hseq, hpre1]
        exact dyn_size_tick_le S tpre

/-- Witness for C3 at a concrete exhausting run on `exStore`. -/
theorem C3_witness :
    migrate_until_exhaustion ⟨100, 10⟩ 10 exStore defaultTask
        = some (exRunTask, exStore, exRunEvs, 4) ∧
      (dyn_total_items exRunTask ≤ 10 ∧
        (exRunTask.dyn_size ≤ 100 ∨
          ∃ tpre, tpre.dyn_size < 100 ∧
            exRunTask.dyn_size ≤ tpre.dyn_size + tick_read_bytes exStore tpre)) :=
  ⟨by decide,
    C3_item_hard_bound_size_soft ⟨100, 10⟩ 10 exStore defaultTask exRunTask
      exStore exRunEvs 4 rfl rfl rfl (by decide)⟩

/-- C9:  invoking the bounded driver with `limits.item = 0` or
`limits.size = 0` is a no-op: it returns immediately, with no tick run,
no event recorded, and the task (cursor fields and cumulative totals) and
the store unchanged. -/
theorem C9_zero_limits_noop (limits : MigrationLimits) (fuel : Nat)
    (S : Store) (task : MigrationTask)
    (h : limits.item = 0 ∨ limits.size = 0) :
    migrate_until_exhaustion limits fuel S task = some (task, S, [], 0) := by
  unfold migrate_until_exhaustion
  rw [if_pos h]

/-- Witness for C9 with a zero item limit on `exStore`. -/
theorem C9_witness :
    (0 = 0 ∨ (100 : Nat) = 0) ∧
      migrate_until_exhaustion ⟨100, 0⟩ 7 exStore defaultTask
        = some (defaultTask, exStore, [], 0) :=
  ⟨Or.inl rfl, C9_zero_limits_noop ⟨100, 0⟩ 7 exStore defaultTask (Or.inl rfl)⟩

/-- C10:  the descend tick (current_top present and carrying the
`:child_storage:default:` child-root marker, current_child absent,
prev_tick_child false) leaves `dyn_top_items`,
`dyn_child_items` and `dyn_size` unchanged even though it performs a
child read probe of the empty key; consequently an invocation can run
strictly more ticks than the items it counts, as the concrete exhausting
run of `exStore` shows: 4 ticks for 3 counted items. -/
theorem C10_descend_probe_uncounted :
    (∀ (S : Store) (task : MigrationTask) (t : Key),
      task.current_top = some t → task.current_child = none →
      task.prev_tick_child = false → isPre defaultMarker t = true →
      (tickT S task).dyn_top_items = task.dyn_top_items ∧
      (tickT S task).dyn_child_items = task.dyn_child_items ∧
      (tickT S task).dyn_size = task.dyn_size ∧
      Ev.rChild (child_io_key_or_halt t).1 []
          (child_get S (child_io_key_or_halt t).1 []) ∈ tickEvs S task) ∧
    (migrate_until_exhaustion ⟨100, 10⟩ 10 exStore defaultTask
        = some (exRunTask, exStore, exRunEvs, 4) ∧
      dyn_total_items exRunTask < 4) := by
  constructor
  · intro S task t h1 h2 h3 h4
    obtain ⟨ct, cc, pv, d1, d2, d3, s1, s2, s3⟩ := task
    simp only at h1 h2 h3
    subst h1 h2 h3
    simp only [tickT, tickEvs, migrate_tick, h4]
    cases hn : child_next S (child_io_key_or_halt t).1 [] with
    | some k => simp only [hn]; refine ⟨trivial, trivial, trivial, ?_⟩; simp
    | none => simp only [hn]; refine ⟨trivial, trivial, trivial, ?_⟩; simp
  · exact ⟨by decide, by decide⟩

/-- Witness for C10's descend clause at the concrete child root of
`exStore`. -/
theorem C10_witness :
    (tickT exStore { defaultTask with current_top := some oKey }).dyn_top_items
        = ({ defaultTask with current_top := some oKey } :
            MigrationTask).dyn_top_items ∧
      (tickT exStore
          { defaultTask with current_top := some oKey }).dyn_child_items
        = ({ defaultTask with current_top := some oKey } :
            MigrationTask).dyn_child_items ∧
      (tickT exStore { defaultTask with current_top := some oKey }).dyn_size
        = ({ defaultTask with current_top := some oKey } :
            MigrationTask).dyn_size ∧
      Ev.rChild (child_io_key_or_halt oKey).1 []
          (child_get exStore (child_io_key_or_halt oKey).1 []) ∈
        tickEvs exStore { defaultTask with current_top := some oKey } :=
  C10_descend_probe_uncounted.1 exStore
    { defaultTask with current_top := some oKey } oKey rfl rfl rfl (by decide)

theorem top_next_gt {S : Store} {t t' : Key} (h : top_next S t = some t') :
    keyLtB t t' = true :=
  (nextKeyL_some_mem h).2

theorem child_next_gt {S : Store} {r c c' : Key}
    (h : child_next S r c = some c') : keyLtB c c' = true :=
  (nextKeyL_some_mem h).2

/-- A `migrate_top` call strictly advances the cursor pair: its first
component moves to a strictly greater key or to absent (plus infinity),
and `current_child` is untouched. -/
theorem migrate_top_pairLt (S : Store) (task : MigrationTask) (t : Key)
    (h2 : task.current_child = none) :
    pairLtB (some t, none) (cursorPair (migrate_top S task t).1) = true := by
  cases h : top_get S t with
  | some data =>
    rw [migrate_top_eq_some S task t data h]
    simp only [cursorPair, h2]
    cases hn : top_next S t with
    | none => simp [pairLtB, optLtB, hn]
    | some t' => simp [pairLtB, optLtB, hn, top_next_gt hn]
  | none =>
    rw [migrate_top_eq_none S task t h]
    simp only [cursorPair, h2]
    cases hn : top_next S t with
    | none => simp [pairLtB, optLtB, hn]
    | some t' => simp [pairLtB, optLtB, hn, top_next_gt hn]

/-- C6 (amended): after any tick the cursor pair is strictly greater in
the lex order with absent = plus infinity, or unchanged, or the tick was
the descend step, which keeps `current_top` and moves `current_child`
from absent to the first child key — a strict lex *decrease*. -/
theorem C6_tick_cursor_order (S : Store) (task : MigrationTask) :
    pairLtB (cursorPair task) (cursorPair (tickT S task)) = true ∨
      cursorPair (tickT S task) = cursorPair task ∨
      (∃ t c, task.current_top = some t ∧ task.current_child = none ∧
        task.prev_tick_child = false ∧ isPre childMarker t = true ∧
        (tickT S task).current_top = some t ∧
        (tickT S task).current_child = some c) := by
  obtain ⟨ct, cc, pv, d1, d2, d3, s1, s2, s3⟩ := task
  cases ct with
  | none =>
    cases cc with
    | none => exact Or.inr (Or.inl rfl)
    | some c => exact Or.inr (Or.inl rfl)
  | some t =>
    cases cc with
    | some c =>
      refine Or.inl ?_
      have hw := tick_eq_walk S ⟨some t, some c, pv, d1, d2, d3, s1, s2, s3⟩
        t c rfl rfl
      cases h : child_get S (child_io_key_or_halt t).1 c with
      | some data =>
        simp only [tickT, hw, migrate_child_eq_some S _ t c data h, cursorPair]
        cases hn : child_next S (child_io_key_or_halt t).1 c with
        | none => simp [pairLtB, optLtB, hn]
        | some c' => simp [pairLtB, optLtB, hn, child_next_gt hn]
      | none =>
        simp only [tickT, hw, migrate_child_eq_none S _ t c h, cursorPair]
        cases hn : child_next S (child_io_key_or_halt t).1 c with
        | none => simp [pairLtB, optLtB, hn]
        | some c' => simp [pairLtB, optLtB, hn, child_next_gt hn]
    | none =>
      cases hcr : isPre defaultMarker t with
      | false =>
        cases pv with
        | false =>
          refine Or.inl ?_
          have hw := tick_eq_top S ⟨some t, none, false, d1, d2, d3, s1, s2, s3⟩
            t rfl rfl hcr rfl
          simp only [tickT, hw]
          exact migrate_top_pairLt S _ t rfl
        | true =>
          refine Or.inr (Or.inl ?_)
          have hw := tick_eq_stuck S ⟨some t, none, true, d1, d2, d3, s1, s2, s3⟩
            t rfl rfl hcr rfl
          simp only [tickT, hw]
      | true =>
        cases pv with
        | false =>
          cases hn : child_next S (child_io_key_or_halt t).1 [] with
          | some c1 =>
            have hw := tick_eq_descend_some S
              ⟨some t, none, false, d1, d2, d3, s1, s2, s3⟩ t c1 rfl rfl hcr rfl hn
            refine Or.inr (Or.inr ⟨t, c1, rfl, rfl, rfl,
                childMarker_of_defaultMarker hcr, ?_, ?_⟩) <;>
              simp only [tickT, hw]
          | none =>
            have hw := tick_eq_descend_none S
              ⟨some t, none, false, d1, d2, d3, s1, s2, s3⟩ t rfl rfl hcr rfl hn
            refine Or.inr (Or.inl ?_)
            simp only [tickT, hw, cursorPair]
        | true =>
          refine Or.inl ?_
          have hw := tick_eq_ascend S ⟨some t, none, true, d1, d2, d3, s1, s2, s3⟩
            t rfl rfl hcr rfl
          simp only [tickT, hw]
          exact migrate_top_pairLt S _ t rfl

/-- The store and cursor of the C6 counterexample: a tick from the child
root of `exStore` descends, moving the cursor pair strictly *down* in
the lex order with absent = plus infinity, and is not a no-op. -/
theorem C6_counterexample :
    pairLtB (cursorPair { defaultTask with current_top := some oKey })
        (cursorPair (tickT exStore
          { defaultTask with current_top := some oKey })) = false ∧
      cursorPair (tickT exStore { defaultTask with current_top := some oKey })
        ≠ cursorPair { defaultTask with current_top := some oKey } ∧
      tickT exStore { defaultTask with current_top := some oKey }
        ≠ { defaultTask with current_top := some oKey } := by
  refine ⟨by decide, by decide, by decide⟩

theorem lookupA_setA_self {κ α : Type} [DecidableEq κ] :
    ∀ (l : List (κ × α)) (k : κ) (v : α), lookupA (setA l k v) k = some v := by
  intro l
  induction l with
  | nil => intro k v; simp [setA, lookupA]
  | cons p t ih =>
    intro k v
    obtain ⟨k', v'⟩ := p
    by_cases hk : k' = k
    · simp [setA, hk, lookupA]
    · simp [setA, hk, lookupA, ih]

theorem freeBalance_slashBal (st : PalletState) (who amt : Nat) :
    freeBalance (slashBal st who amt) who =
      freeBalance st who - min (freeBalance st who) amt := by
  unfold freeBalance slashBal
  rw [lookupA_setA_self]
  rfl

theorem persist_load (p : PersistedTask) : persistTask (loadTask p) = p := rfl

theorem load_persist (t : MigrationTask) (h1 : t.dyn_top_items = 0)
    (h2 : t.dyn_child_items = 0) (h3 : t.dyn_size = 0) :
    loadTask (persistTask t) = t := by
  obtain ⟨ct, cc, pv, e1, e2, e3, s1, s2, s3⟩ := t
  simp only at h1 h2 h3
  subst h1 h2 h3
  rfl

/-- C4 (amended): with the limit and deposit checks passing,
`continue_migrate` fails with `WrongWitness` — leaving the whole state
(cursor, balances, events) unchanged and slashing nothing — if and only
if the supplied `witness_task` differs from the loaded cursor under
**whole-struct** equality (the derived `PartialEq` compares the ephemeral
counters too); for witnesses whose ephemeral counters are zero, as every
witness decoded from a transaction is, this coincides with comparison of
the persisted fields only. -/
theorem C4_wrong_witness_iff (cfg : PalletConfig) (fuel : Nat) (who : Nat)
    (limits : MigrationLimits) (real_size_upper : Nat)
    (witness_task : MigrationTask) (st : PalletState)
    (hlim : limits.size ≤ cfg.SignedMigrationMaxLimits.size ∧
      limits.item ≤ cfg.SignedMigrationMaxLimits.item)
    (hfunds : can_slash st who
      (satMulB cfg.SignedDepositPerItem limits.item) = true) :
    ((continue_migrate cfg fuel who limits real_size_upper witness_task st
        = some (st, .error "wrong witness")) ↔
      witness_task ≠ loadTask st.migrationProcess) ∧
    (witness_task.dyn_top_items = 0 → witness_task.dyn_child_items = 0 →
      witness_task.dyn_size = 0 →
      (witness_task ≠ loadTask st.migrationProcess ↔
        persistTask witness_task ≠ st.migrationProcess)) := by
  constructor
  · unfold continue_migrate
    rw [if_pos hlim, if_pos hfunds]
    by_cases hw : loadTask st.migrationProcess = witness_task
    · rw [if_pos hw]
      constructor
      · intro h
        exfalso
        cases hd : migrate_until_exhaustion limits fuel st.store
            (loadTask st.migrationProcess) with
        | none => rw [hd] at h; cases h
        | some res =>
          obtain ⟨task', S', evs, n⟩ := res
          rw [hd] at h
          by_cases hsz : real_size_upper < task'.dyn_size
          · simp only [if_pos hsz, Option.some.injEq, Prod.mk.injEq] at h
            exact absurd h.2 (by decide)
          · simp only [if_neg hsz, Option.some.injEq, Prod.mk.injEq] at h
            exact absurd h.2 (by decide)
      · intro hne
        exact absurd hw.symm hne
    · rw [if_neg hw]
      constructor
      · intro _ he
        exact hw he.symm
      · intro _
        rfl
  · intro h1 h2 h3
    constructor
    · intro hne hpe
      exact hne (by rw [← hpe, load_persist witness_task h1 h2 h3])
    · intro hpne hwe
      exact hpne (by rw [hwe, persist_load])

/-- C4 (as stated) is false: `dynWitness` agrees with the stored cursor
on every persisted field, yet `continue_migrate` rejects it with
`WrongWitness`, because the derived equality also compares the ephemeral
counters. -/
theorem C4_counterexample :
    persistTask dynWitness = mockState.migrationProcess ∧
      continue_migrate mockConfig 1 1 ⟨100, 5⟩ 100 dynWitness mockState
        = some (mockState, .error "wrong witness") :=
  ⟨by decide, by decide⟩

/-- Witness for amended C4 at the mock state with a freshly decoded
(equal) witness. -/
theorem C4_witness :
    ((continue_migrate mockConfig 10 1 ⟨100, 5⟩ 100 defaultTask mockState
        = some (mockState, .error "wrong witness")) ↔
      defaultTask ≠ loadTask mockState.migrationProcess) ∧
    (defaultTask.dyn_top_items = 0 → defaultTask.dyn_child_items = 0 →
      defaultTask.dyn_size = 0 →
      (defaultTask ≠ loadTask mockState.migrationProcess ↔
        persistTask defaultTask ≠ mockState.migrationProcess)) :=
  C4_wrong_witness_iff mockConfig 10 1 ⟨100, 5⟩ 100 defaultTask mockState
    (by decide) (by decide)

/-- C5: if, after running the bounded driver, `real_size_upper` is
smaller than `dyn_size`, then `continue_migrate` slashes the caller for
exactly the pre-computed deposit `SignedDepositPerItem × limits.item`,
returns the `WrongWitnessData` error, does not persist the advanced
cursor, and emits no event. -/
theorem C5_slash_on_undersized_witness (cfg : PalletConfig) (fuel : Nat)
    (who : Nat) (limits : MigrationLimits) (real_size_upper : Nat)
    (witness_task : MigrationTask) (st : PalletState)
    (task' : MigrationTask) (S' : Store) (evs : List Ev) (n : Nat)
    (hlim : limits.size ≤ cfg.SignedMigrationMaxLimits.size ∧
      limits.item ≤ cfg.SignedMigrationMaxLimits.item)
    (hfunds : can_slash st who
      (satMulB cfg.SignedDepositPerItem limits.item) = true)
    (hw : loadTask st.migrationProcess = witness_task)
    (hdrv : migrate_until_exhaustion limits fuel st.store
      (loadTask st.migrationProcess) = some (task', S', evs, n))
    (hover : real_size_upper < task'.dyn_size) :
    ∃ st', continue_migrate cfg fuel who limits real_size_upper
        witness_task st = some (st', .error "wrong witness data") ∧
      st'.migrationProcess = st.migrationProcess ∧
      st'.events = st.events ∧
      freeBalance st' who = freeBalance st who -
        satMulB cfg.SignedDepositPerItem limits.item ∧
      satMulB cfg.SignedDepositPerItem limits.item ≤ freeBalance st who := by
  have hle : satMulB cfg.SignedDepositPerItem limits.item ≤
      freeBalance st who := by
    simpa [can_slash] using hfunds
  refine ⟨{ slashBal st who
      (satMulB cfg.SignedDepositPerItem limits.item) with store := S' },
    ?_, rfl, rfl, ?_, hle⟩
  · unfold continue_migrate
    rw [if_pos hlim, if_pos hfunds, if_pos hw, hdrv]
    simp only [if_pos hover]
  · show freeBalance (slashBal st who
      (satMulB cfg.SignedDepositPerItem limits.item)) who = _
    rw [freeBalance_slashBal]
    omega

/-- Witness for C5: a concrete undersized `real_size_upper` on the mock
state; the caller is slashed by the deposit 5. -/
theorem C5_witness :
    ∃ st', continue_migrate mockConfig 10 1 ⟨100, 5⟩ 1 defaultTask mockState
        = some (st', .error "wrong witness data") ∧
      st'.migrationProcess = mockState.migrationProcess ∧
      st'.events = mockState.events ∧
      freeBalance st' 1 = freeBalance mockState 1 -
        satMulB mockConfig.SignedDepositPerItem (5 : Nat) ∧
      satMulB mockConfig.SignedDepositPerItem (5 : Nat) ≤
        freeBalance mockState 1 :=
  C5_slash_on_undersized_witness mockConfig 10 1 ⟨100, 5⟩ 1 defaultTask
    mockState exRunTask exStore exRunEvs 4 (by decide) (by decide)
    (by decide) (by decide) (by decide)

/-- C7 (amended): when the supplied root is not a valid child root *and
the child-key list is nonempty*, `migrate_custom_child` fails with
`BadChildKey` before touching any key, leaving the state (store,
balances, cursor, events) unchanged, regardless of `total_size`.  (With
an empty list the root is never validated.) -/
theorem C7_bad_child_key (cfg : PalletConfig) (who : Nat) (top_key : Key)
    (child_keys : List Key) (total_size : Nat) (st : PalletState)
    (hbad : child_io_key top_key = none) (hne : child_keys ≠ [])
    (hfunds : can_slash st who (satAddB cfg.SignedDepositBase
      (satMulB cfg.SignedDepositPerItem child_keys.length)) = true) :
    migrate_custom_child cfg who top_key child_keys total_size st
      = (st, .error "bad child key") := by
  unfold migrate_custom_child
  rw [if_pos hfunds]
  cases child_keys with
  | nil => exact absurd rfl hne
  | cons ck rest =>
    simp only [migrate_custom_child_loop, hbad]

/-- C7 (as stated) is false: with an *empty* `child_keys` list the root
is never validated, so the call with an ill-formed root succeeds (it
even emits `Migrated`) instead of failing with `BadChildKey`. -/
theorem C7_counterexample :
    child_io_key badKey = none ∧
      migrate_custom_child mockConfig 1 badKey [] 0 mockState
        = ({ mockState with
            events := mockState.events ++ [.Migrated 0 0 .Signed] },
          .ok ()) :=
  ⟨by decide, by decide⟩

/-- Witness for amended C7 at a concrete nonempty key list. -/
theorem C7_witness :
    migrate_custom_child mockConfig 1 badKey [[3]] 7 mockState
      = (mockState, .error "bad child key") :=
  C7_bad_child_key mockConfig 1 badKey [[3]] 7 mockState (by decide)
    (by decide) (by decide)

/-- C8 (amended): when `migrate_custom_top` fails its post-hoc size
verification (`dyn_size > witness_size`) it slashes the caller's deposit
and returns the error, but emits **no** event — in particular no
`Slashed` event; on success it emits `Migrated{top: |keys|, child: 0,
compute: Signed}`. -/
theorem C8_custom_top_events (cfg : PalletConfig) (who : Nat)
    (keys : List Key) (witness_size : Nat) (st : PalletState)
    (hfunds : can_slash st who (satAddB cfg.SignedDepositBase
      (satMulB cfg.SignedDepositPerItem keys.length)) = true) :
    (witness_size < (migrate_custom_top_loop keys st.store 0).2 →
      ∃ st', migrate_custom_top cfg who keys witness_size st
          = (st', .error "wrong witness data") ∧
        st'.events = st.events ∧
        freeBalance st' who = freeBalance st who -
          satAddB cfg.SignedDepositBase
            (satMulB cfg.SignedDepositPerItem keys.length)) ∧
    ((migrate_custom_top_loop keys st.store 0).2 ≤ witness_size →
      ∃ st', migrate_custom_top cfg who keys witness_size st
          = (st', .ok ()) ∧
        st'.events = st.events ++ [.Migrated keys.length 0 .Signed]) := by
  have hle : satAddB cfg.SignedDepositBase
      (satMulB cfg.SignedDepositPerItem keys.length) ≤ freeBalance st who := by
    simpa [can_slash] using hfunds
  constructor
  · intro hlt
    refine ⟨{ slashBal st who (satAddB cfg.SignedDepositBase
        (satMulB cfg.SignedDepositPerItem keys.length)) with
        store := (migrate_custom_top_loop keys st.store 0).1 },
      ?_, rfl, ?_⟩
    · unfold migrate_custom_top
      rw [if_pos hfunds, if_pos hlt]
    · show freeBalance (slashBal st who (satAddB cfg.SignedDepositBase
        (satMulB cfg.SignedDepositPerItem keys.length))) who = _
      rw [freeBalance_slashBal]
      omega
  · intro hge
    refine ⟨{ st with
        store := (migrate_custom_top_loop keys st.store 0).1,
        events := (st.events ++ [.Migrated keys.length 0 .Signed]) },
      ?_, rfl⟩
    unfold migrate_custom_top
    rw [if_pos hfunds, if_neg (Nat.not_lt.mpr hge)]

/-- C8 (as stated) is false on the slash path: the failed size check
slashes the deposit (6 units: base 5 + 1 per item) but deposits **no**
`Slashed` event — the events list stays empty. -/
theorem C8_counterexample :
    migrate_custom_top mockConfig 1 [[1]] 0 c8State
        = ({ c8State with balances := [(1, 994)] },
          .error "wrong witness data") ∧
      ({ c8State with balances := [(1, 994)] } : PalletState).events = [] :=
  ⟨by decide, by decide⟩

/-- Witness for amended C8 at the concrete state `c8State`, exercising
both the slash path (witness 0) and the success path (witness 2). -/
theorem C8_witness :
    ((0 : Nat) < (migrate_custom_top_loop [[1]] c8State.store 0).2 →
      ∃ st', migrate_custom_top mockConfig 1 [[1]] 0 c8State
          = (st', .error "wrong witness data") ∧
        st'.events = c8State.events ∧
        freeBalance st' 1 = freeBalance c8State 1 -
          satAddB mockConfig.SignedDepositBase
            (satMulB mockConfig.SignedDepositPerItem ([[1]] : List Key).length)) ∧
    ((migrate_custom_top_loop [[1]] c8State.store 0).2 ≤ 0 →
      ∃ st', migrate_custom_top mockConfig 1 [[1]] 0 c8State
          = (st', .ok ()) ∧
        st'.events = c8State.events ++ [.Migrated ([[1]] : List Key).length 0 .Signed]) :=
  C8_custom_top_events mockConfig 1 [[1]] 0 c8State (by decide)

theorem keyLeB_refl (k : Key) : keyLeB k k = true := by
  simp [keyLeB]

theorem defaultMarker_isCR (r : Key) :
    isPre childMarker (defaultMarker ++ r) = true :=
  childMarker_of_defaultMarker (isPre_append _ _)

/-- The io root of a well-formed child-root key recovers the key. -/
theorem default_root_eq {t : Key} (h : isPre defaultMarker t = true) :
    defaultMarker ++ (child_io_key_or_halt t).1 = t := by
  obtain ⟨s, rfl⟩ := isPre_iff_append.mp h
  simp [child_io_key_or_halt, child_io_key_append]

/-- No halt marker is emitted at a well-formed child root. -/
theorem haltEvs_nil {t : Key} (h : isPre defaultMarker t = true) :
    haltEvs t = [] := by
  simp [haltEvs, child_io_key_or_halt, child_io_key_eq_some h]

theorem filter_fullTopTouch_top (S : Store) (t k : Key) :
    (fullTopTouch S t).filter (touchTopB k)
      = if k = t then fullTopTouch S t else [] := by
  by_cases hk : k = t
  · subst hk
    rw [if_pos rfl]
    unfold fullTopTouch
    cases top_get S k <;> simp [touchTopB]
  · rw [if_neg hk]
    have hk' : ¬ t = k := fun he => hk he.symm
    unfold fullTopTouch
    cases top_get S t <;> simp [touchTopB, hk']

theorem filter_fullTopTouch_child (S : Store) (t r ck : Key) :
    (fullTopTouch S t).filter (touchChildB r ck) = [] := by
  unfold fullTopTouch
  cases top_get S t <;> simp [touchChildB]

theorem filter_fullChildTouch_child (S : Store) (r c r' ck : Key) :
    (fullChildTouch S r c).filter (touchChildB r' ck)
      = if r' = r ∧ ck = c then fullChildTouch S r c else [] := by
  by_cases h : r' = r ∧ ck = c
  · rw [if_pos h]
    have hb : (decide (r = r') && decide (c = ck)) = true := by
      simp [h.1, h.2]
    unfold fullChildTouch
    cases child_get S r c <;> simp [touchChildB, hb]
  · rw [if_neg h]
    have h' : ¬ (r = r' ∧ c = ck) := fun hp => h ⟨hp.1.symm, hp.2.symm⟩
    have hb : (decide (r = r') && decide (c = ck)) = false := by
      by_cases hr : r = r'
      · have hc : ¬ c = ck := fun he => h' ⟨hr, he⟩
        simp [hc]
      · simp [hr]
    unfold fullChildTouch
    cases child_get S r c <;> simp [touchChildB, hb]

theorem filter_fullChildTouch_top (S : Store) (r c k : Key) :
    (fullChildTouch S r c).filter (touchTopB k) = [] := by
  unfold fullChildTouch
  cases child_get S r c <;> simp [touchTopB]

theorem filter_probeTouch_child (S : Store) (r r' ck : Key) :
    (probeTouch S r).filter (touchChildB r' ck)
      = if r' = r ∧ ck = [] then probeTouch S r else [] := by
  by_cases h : r' = r ∧ ck = []
  · rw [if_pos h]
    have hb : (decide (r = r') && decide (([] : Key) = ck)) = true := by
      simp [h.1, h.2]
    simp only [probeTouch, List.filter, touchChildB, hb]
  · rw [if_neg h]
    have h' : ¬ (r = r' ∧ ([] : Key) = ck) := fun hp => h ⟨hp.1.symm, hp.2.symm⟩
    have hb : (decide (r = r') && decide (([] : Key) = ck)) = false := by
      by_cases hr : r = r'
      · have hc : ¬ ([] : Key) = ck := fun he => h' ⟨hr, he⟩
        simp [hc]
      · simp [hr]
    simp only [probeTouch, List.filter, touchChildB, hb]

theorem filter_probeTouch_top (S : Store) (r k : Key) :
    (probeTouch S r).filter (touchTopB k) = [] := by
  simp [probeTouch, touchTopB]

theorem topFilterExp_some (S : Store) (task : MigrationTask) (t : Key)
    (h : task.current_top = some t) (k : Key) :
    topFilterExp S task k =
      if keyLeB t k && (decide (k ∈ topKeys S) || decide (k = t)) then
        fullTopTouch S k
      else [] := by
  unfold topFilterExp
  rw [h]

theorem topFilterExp_none (S : Store) (task : MigrationTask)
    (h : task.current_top = none) (k : Key) :
    topFilterExp S task k = [] := by
  unfold topFilterExp
  rw [h]

theorem childFilterExp_none (S : Store) (task : MigrationTask)
    (h : task.current_top = none) (r ck : Key) :
    childFilterExp S task r ck = [] := by
  unfold childFilterExp
  rw [h]

/-- The expected remaining top touches after the cursor advances from
`t` to `top_next S t`: exactly the touch of `t` itself is consumed. -/
theorem top_advance_filter (S : Store) (t : Key) (task1 : MigrationTask)
    (h1 : task1.current_top = top_next S t) (k : Key) :
    (fullTopTouch S t).filter (touchTopB k) ++ topFilterExp S task1 k
      = if keyLeB t k && (decide (k ∈ topKeys S) || decide (k = t)) then
          fullTopTouch S k
        else [] := by
  rw [filter_fullTopTouch_top]
  by_cases hk : k = t
  · subst hk
    rw [if_pos rfl]
    have hexp : topFilterExp S task1 k = [] := by
      cases hn : top_next S k with
      | none => exact topFilterExp_none S task1 (h1.trans hn) k
      | some m =>
        rw [topFilterExp_some S task1 m (h1.trans hn)]
        have hlt : keyLtB k m = true := top_next_gt hn
        simp [keyLeB, hlt]
    rw [hexp, List.append_nil]
    have hc : (keyLeB k k && (decide (k ∈ topKeys S) || decide (k = k)))
        = true := by simp [keyLeB]
    rw [hc, if_pos rfl]
  · rw [if_neg hk, List.nil_append]
    have hkt : decide (k = t) = false := by simp [hk]
    by_cases hmem : k ∈ topKeys S
    · cases hn : top_next S t with
      | none =>
        rw [topFilterExp_none S task1 (h1.trans hn)]
        have hno : keyLtB t k = false := nextKeyL_none hn k hmem
        have hlt : keyLtB k t = true := keyLt_of_not_eq_of_not_gt hk hno
        simp [keyLeB, hlt]
      | some m =>
        rw [topFilterExp_some S task1 m (h1.trans hn)]
        have hzone := nextKeyL_zone hn hmem
        by_cases htk : keyLtB t k = true
        · rcases hzone.mp htk with hm | hm
          · have hle : keyLeB m k = true := by simp [keyLeB, keyLt_asymm hm]
            have hle2 : keyLeB t k = true := by simp [keyLeB, keyLt_asymm htk]
            simp [hle, hle2, hmem]
          · have hle : keyLeB m k = true := by rw [hm]; exact keyLeB_refl k
            have hle2 : keyLeB t k = true := by simp [keyLeB, keyLt_asymm htk]
            simp [hle, hle2, hmem]
        · rw [Bool.not_eq_true] at htk
          have hlt : keyLtB k t = true := keyLt_of_not_eq_of_not_gt hk htk
          have hlt2 : keyLtB k m = true := keyLt_trans hlt (top_next_gt hn)
          have hA : keyLeB t k = false := by simp [keyLeB, hlt]
          have hB : keyLeB m k = false := by simp [keyLeB, hlt2]
          simp [hA, hB]
    · have hmem' : decide (k ∈ topKeys S) = false := by simp [hmem]
      cases hn : top_next S t with
      | none =>
        rw [topFilterExp_none S task1 (h1.trans hn)]
        simp [hmem', hkt]
      | some m =>
        rw [topFilterExp_some S task1 m (h1.trans hn)]
        have hkm : decide (k = m) = false := by
          simp only [decide_eq_false_iff_not]
          intro he
          subst he
          exact hmem (nextKeyL_some_mem hn).1
        simp [hmem', hkt, hkm]

theorem childFilterExp_some (S : Store) (task : MigrationTask) (t : Key)
    (h : task.current_top = some t) (r ck : Key) :
    childFilterExp S task r ck =
      if decide ((defaultMarker ++ r) ∈ topKeys S) then
        if keyLtB t (defaultMarker ++ r) then childAllPending S r ck
        else if decide (defaultMarker ++ r = t) then
          (match task.current_child, task.prev_tick_child with
            | none, false => childAllPending S r ck
            | none, true => []
            | some c, _ =>
              if decide (ck = ([] : Key)) then []
              else if keyLeB c ck && decide (ck ∈ childKeysOf S r) then
                fullChildTouch S r ck
              else [])
        else []
      else [] := by
  unfold childFilterExp
  rw [h]

/-- The pending child events are untouched when the top cursor advances
past a non-child-root key (or ascends out of a finished child root). -/
theorem childFilterExp_advance (S : Store) (t : Key)
    (task task1 : MigrationTask)
    (ht : task.current_top = some t) (hc : task.current_child = none)
    (h1 : task1.current_top = top_next S t)
    (h2 : task1.current_child = none) (h3 : task1.prev_tick_child = false)
    (hstate : isPre defaultMarker t = false ∨ task.prev_tick_child = true)
    (r ck : Key) :
    childFilterExp S task1 r ck = childFilterExp S task r ck := by
  by_cases hmem : (defaultMarker ++ r) ∈ topKeys S
  · by_cases hot : defaultMarker ++ r = t
    · have hcr : isPre defaultMarker t = true := by
        rw [← hot]
        exact isPre_append _ _
      have hprev : task.prev_tick_child = true := by
        rcases hstate with hs | hs
        · rw [hcr] at hs
          cases hs
        · exact hs
      have hrhs : childFilterExp S task r ck = [] := by
        rw [childFilterExp_some S task t ht r ck]
        simp only [hc, hprev, hot]
        simp [hmem]
      rw [hrhs]
      cases hn : top_next S t with
      | none => exact childFilterExp_none S task1 (h1.trans hn) r ck
      | some m =>
        rw [childFilterExp_some S task1 m (h1.trans hn) r ck]
        have hlt : keyLtB t m = true := top_next_gt hn
        have hfalse : keyLtB m (defaultMarker ++ r) = false := by
          rw [hot]
          exact keyLt_asymm hlt
        have heq : decide (defaultMarker ++ r = m) = false := by
          simp only [decide_eq_false_iff_not]
          intro he
          rw [hot] at he
          rw [← he] at hlt
          rw [keyLt_irrefl] at hlt
          cases hlt
        simp [hmem, hfalse, heq]
    · cases hn : top_next S t with
      | none =>
        rw [childFilterExp_none S task1 (h1.trans hn) r ck,
          childFilterExp_some S task t ht r ck]
        have hno : keyLtB t (defaultMarker ++ r) = false :=
          nextKeyL_none hn _ hmem
        simp [hmem, hno, hot]
      | some m =>
        rw [childFilterExp_some S task1 m (h1.trans hn) r ck,
          childFilterExp_some S task t ht r ck]
        have hzone := nextKeyL_zone hn hmem
        by_cases htr : keyLtB t (defaultMarker ++ r) = true
        · rcases hzone.mp htr with hmo | hmo
          · simp [hmem, htr, hmo]
          · have hfalse : keyLtB m (defaultMarker ++ r) = false := by
              rw [← hmo]
              exact keyLt_irrefl m
            have heq : decide (defaultMarker ++ r = m) = true := by
              simp [hmo.symm]
            simp only [h2, h3]
            simp [hmem, htr, hfalse, heq, h2, h3]
        · rw [Bool.not_eq_true] at htr
          have hno : ¬ (keyLtB m (defaultMarker ++ r) = true ∨
              m = defaultMarker ++ r) := by
            intro hx
            have := hzone.mpr hx
            rw [htr] at this
            cases this
          obtain ⟨hno1, hno2⟩ := not_or.mp hno
          rw [Bool.not_eq_true] at hno1
          have heq : decide (defaultMarker ++ r = m) = false := by
            simp only [decide_eq_false_iff_not]
            exact fun he => hno2 he.symm
          simp [hmem, htr, hno1, heq, hot]
  · have hm : decide ((defaultMarker ++ r) ∈ topKeys S) = false := by
      simp [hmem]
    rw [childFilterExp_some S task t ht r ck]
    cases hn : top_next S t with
    | none =>
      rw [childFilterExp_none S task1 (h1.trans hn) r ck]
      simp [hm]
    | some m =>
      rw [childFilterExp_some S task1 m (h1.trans hn) r ck]
      simp [hm]

/-- The pieces of a `migrate_top` call: the events are the full touch of
`t`, the top cursor advances to `top_next S t`, and the rest of the
cursor is untouched. -/
theorem migrate_top_parts (S : Store) (task : MigrationTask) (t : Key) :
    (migrate_top S task t).2.2 = fullTopTouch S t ∧
    (migrate_top S task t).1.current_top = top_next S t ∧
    (migrate_top S task t).1.current_child = task.current_child ∧
    (migrate_top S task t).1.prev_tick_child = task.prev_tick_child := by
  cases h : top_get S t with
  | some data =>
    rw [migrate_top_eq_some S task t data h]
    refine ⟨?_, rfl, rfl, rfl⟩
    rw [fullTopTouch, h]
  | none =>
    rw [migrate_top_eq_none S task t h]
    refine ⟨?_, rfl, rfl, rfl⟩
    rw [fullTopTouch, h]

theorem keyLeB_iff {a b : Key} :
    keyLeB a b = true ↔ (a = b ∨ keyLtB a b = true) := by
  constructor
  · intro h
    rcases keyLt_conn a b with he | hl | hl
    · exact Or.inl he
    · exact Or.inr hl
    · rw [keyLeB, hl] at h
      cases h
  · intro h
    rcases h with rfl | hl
    · exact keyLeB_refl a
    · rw [keyLeB, keyLt_asymm hl]
      rfl

theorem keyLeB_false_of_lt {a b : Key} (h : keyLtB b a = true) :
    keyLeB a b = false := by
  rw [keyLeB, h]
  rfl

theorem keyLt_nil_of_ne {l : Key} (h : l ≠ []) : keyLtB [] l = true :=
  (keyLt_nil_left_iff l).mpr h

theorem fullChildTouch_eq_some {S : Store} {r c : Key} {v : Value}
    (h : child_get S r c = some v) :
    fullChildTouch S r c = [.rChild r c (some v), .wChild r c v] := by
  rw [fullChildTouch, h]

theorem childKeys_mem_get {S : Store} {r c : Key}
    (h : c ∈ childKeysOf S r) : ∃ v, child_get S r c = some v :=
  lookupA_mem_fst h

theorem roots_ne_of_ne {r r0 : Key} (h : r ≠ r0) :
    defaultMarker ++ r ≠ defaultMarker ++ r0 :=
  fun he => h (List.append_cancel_left he)

/-- Child filters are equal across two cursor states that sit at the same
top key, provided the key is not the owner of namespace `r`. -/
theorem childFilterExp_same_top (S : Store) (t : Key)
    (task task1 : MigrationTask)
    (ht : task.current_top = some t) (ht1 : task1.current_top = some t)
    (r ck : Key) (hro : defaultMarker ++ r ≠ t) :
    childFilterExp S task1 r ck = childFilterExp S task r ck := by
  rw [childFilterExp_some S task t ht r ck,
    childFilterExp_some S task1 t ht1 r ck]
  have heq : decide (defaultMarker ++ r = t) = false := by
    simp [hro]
  simp [heq]

/-- Step lemma for the two tick branches that advance the top cursor
(a plain top migration, and the ascend out of a finished child root). -/
theorem tick_step_top_like (S : Store) (task : MigrationTask) (t : Key)
    (ht : task.current_top = some t) (hc : task.current_child = none)
    (hcase : (isPre defaultMarker t = false ∧ task.prev_tick_child = false) ∨
      (isPre defaultMarker t = true ∧ task.prev_tick_child = true)) :
    (∀ k, (tickEvs S task).filter (touchTopB k) ++
        topFilterExp S (tickT S task) k = topFilterExp S task k) ∧
    (∀ r ck, (tickEvs S task).filter (touchChildB r ck) ++
        childFilterExp S (tickT S task) r ck = childFilterExp S task r ck) := by
  rcases hcase with ⟨hcr, hp⟩ | ⟨hcr, hp⟩
  · have hw := tick_eq_top S task t ht hc hcr hp
    obtain ⟨hev, hct, hcc, hcp⟩ := migrate_top_parts S task t
    constructor
    · intro k
      rw [tickEvs, tickT, hw, hev, topFilterExp_some S task t ht k]
      exact top_advance_filter S t _ hct k
    · intro r ck
      rw [tickEvs, tickT, hw, hev, filter_fullTopTouch_child,
        List.nil_append]
      exact childFilterExp_advance S t task _ ht hc hct
        (hcc.trans hc) (hcp.trans hp) (Or.inl hcr) r ck
  · have hw := tick_eq_ascend S task t ht hc hcr hp
    obtain ⟨hev, hct, hcc, hcp⟩ :=
      migrate_top_parts S { task with prev_tick_child := false } t
    constructor
    · intro k
      rw [tickEvs, tickT, hw, hev, topFilterExp_some S task t ht k]
      exact top_advance_filter S t _ hct k
    · intro r ck
      rw [tickEvs, tickT, hw, hev, filter_fullTopTouch_child,
        List.nil_append]
      exact childFilterExp_advance S t task _ ht hc hct
        (hcc.trans hc) hcp (Or.inr hp) r ck

/-- The pending child filter of the namespace owned by the current top
key, written through the cursor's child state. -/
theorem childFilterExp_at_owner (S : Store) (task : MigrationTask) (t : Key)
    (ht : task.current_top = some t) (hdef : isPre defaultMarker t = true)
    (hmemT : t ∈ topKeys S) (ck : Key) :
    childFilterExp S task ((child_io_key_or_halt t).1) ck =
      (match task.current_child, task.prev_tick_child with
        | none, false => childAllPending S (child_io_key_or_halt t).1 ck
        | none, true => []
        | some c, _ =>
          if decide (ck = ([] : Key)) then []
          else if keyLeB c ck &&
              decide (ck ∈ childKeysOf S (child_io_key_or_halt t).1) then
            fullChildTouch S (child_io_key_or_halt t).1 ck
          else []) := by
  rw [childFilterExp_some S task t ht]
  rw [default_root_eq hdef]
  simp [hmemT, keyLt_irrefl]

/-- Step lemma for the descend branch. -/
theorem tick_step_descend (S : Store) (task : MigrationTask) (t : Key)
    (hInv : InvC1 S task)
    (ht : task.current_top = some t) (hc : task.current_child = none)
    (hcr : isPre defaultMarker t = true) (hp : task.prev_tick_child = false) :
    (∀ k, (tickEvs S task).filter (touchTopB k) ++
        topFilterExp S (tickT S task) k = topFilterExp S task k) ∧
    (∀ r ck, (tickEvs S task).filter (touchChildB r ck) ++
        childFilterExp S (tickT S task) r ck = childFilterExp S task r ck) := by
  obtain ⟨hdef, hmemT⟩ := hInv.top_marker t ht (childMarker_of_defaultMarker hcr)
  have ho0 := default_root_eq hdef
  have hhalt := haltEvs_nil hdef
  cases hn : child_next S (child_io_key_or_halt t).1 [] with
  | some c1 =>
    have hw := tick_eq_descend_some S task t c1 ht hc hcr hp hn
    have hev : tickEvs S task = probeTouch S (child_io_key_or_halt t).1 := by
      rw [tickEvs, hw, hhalt]
      rfl
    have ht1 : (tickT S task).current_top = some t := by
      rw [tickT, hw]
      exact ht
    have hcc1 : (tickT S task).current_child = some c1 := by rw [tickT, hw]
    have hcp1 : (tickT S task).prev_tick_child = true := by rw [tickT, hw]
    constructor
    · intro k
      rw [hev, filter_probeTouch_top, List.nil_append,
        topFilterExp_some S task t ht k,
        topFilterExp_some S (tickT S task) t ht1 k]
    · intro r ck
      rw [hev, filter_probeTouch_child]
      by_cases hro : r = (child_io_key_or_halt t).1
      · subst hro
        rw [childFilterExp_at_owner S task t ht hdef hmemT ck,
          childFilterExp_at_owner S (tickT S task) t ht1 hdef hmemT ck]
        simp only [hc, hp, hcc1, hcp1]
        by_cases hck : ck = []
        · subst hck
          simp [childAllPending]
        · have hckd : decide (ck = ([] : Key)) = false := by simp [hck]
          rw [if_neg (by simp [hck]), List.nil_append]
          by_cases hmm : ck ∈ childKeysOf S (child_io_key_or_halt t).1
          · have hle : keyLeB c1 ck = true := by
              have h0 : keyLtB [] ck = true := keyLt_nil_of_ne hck
              have hmin := nextKeyL_min hn ck hmm h0
              rw [keyLeB, hmin]
              rfl
            simp [childAllPending, hckd, hmm, hle]
          · simp [childAllPending, hckd, hmm]
      · have hone : defaultMarker ++ r ≠ t := by
          rw [← ho0]
          exact roots_ne_of_ne hro
        have hfalse : ¬(r = (child_io_key_or_halt t).1 ∧ ck = []) :=
          fun hx => hro hx.1
        rw [if_neg hfalse, List.nil_append]
        exact childFilterExp_same_top S t task (tickT S task) ht ht1 r ck hone
  | none =>
    have hw := tick_eq_descend_none S task t ht hc hcr hp hn
    have hev : tickEvs S task = probeTouch S (child_io_key_or_halt t).1 := by
      rw [tickEvs, hw, hhalt]
      rfl
    have ht1 : (tickT S task).current_top = some t := by
      rw [tickT, hw]
      exact ht
    have hcc1 : (tickT S task).current_child = none := by
      rw [tickT, hw]
      exact hc
    have hcp1 : (tickT S task).prev_tick_child = true := by rw [tickT, hw]
    constructor
    · intro k
      rw [hev, filter_probeTouch_top, List.nil_append,
        topFilterExp_some S task t ht k,
        topFilterExp_some S (tickT S task) t ht1 k]
    · intro r ck
      rw [hev, filter_probeTouch_child]
      by_cases hro : r = (child_io_key_or_halt t).1
      · subst hro
        rw [childFilterExp_at_owner S task t ht hdef hmemT ck,
          childFilterExp_at_owner S (tickT S task) t ht1 hdef hmemT ck]
        simp only [hc, hp, hcc1, hcp1]
        by_cases hck : ck = []
        · subst hck
          simp [childAllPending]
        · have hckd : decide (ck = ([] : Key)) = false := by simp [hck]
          rw [if_neg (by simp [hck]), List.nil_append]
          have hmm : ¬ ck ∈ childKeysOf S (child_io_key_or_halt t).1 := by
            intro hmem
            have h0 : keyLtB [] ck = true := keyLt_nil_of_ne hck
            have := nextKeyL_none hn ck hmem
            rw [this] at h0
            cases h0
          simp [childAllPending, hckd, hmm]
      · have hone : defaultMarker ++ r ≠ t := by
          rw [← ho0]
          exact roots_ne_of_ne hro
        have hfalse : ¬(r = (child_io_key_or_halt t).1 ∧ ck = []) :=
          fun hx => hro hx.1
        rw [if_neg hfalse, List.nil_append]
        exact childFilterExp_same_top S t task (tickT S task) ht ht1 r ck hone

/-- Step lemma for the child-walk branch. -/
theorem tick_step_walk (S : Store) (task : MigrationTask) (t c : Key)
    (hInv : InvC1 S task)
    (ht : task.current_top = some t) (hcc : task.current_child = some c) :
    (∀ k, (tickEvs S task).filter (touchTopB k) ++
        topFilterExp S (tickT S task) k = topFilterExp S task k) ∧
    (∀ r ck, (tickEvs S task).filter (touchChildB r ck) ++
        childFilterExp S (tickT S task) r ck = childFilterExp S task r ck) := by
  obtain ⟨hprev, hcne, t', ht', hmm0⟩ := hInv.child_mem c hcc
  rw [ht] at ht'
  have heq : t = t' := Option.some_inj.mp ht'
  have hmm : c ∈ childKeysOf S (child_io_key_or_halt t).1 := by
    rw [heq]
    exact hmm0
  obtain ⟨t2, ht2, hdef0, hmemT0⟩ := hInv.prev_root hprev
  rw [ht] at ht2
  have heq2 : t = t2 := Option.some_inj.mp ht2
  have hdef : isPre defaultMarker t = true := by
    rw [heq2]
    exact hdef0
  have hmemT : t ∈ topKeys S := by
    rw [heq2]
    exact hmemT0
  obtain ⟨v, hv⟩ := childKeys_mem_get hmm
  have hw := tick_eq_walk S task t c ht hcc
  have hw2 := migrate_child_eq_some S task t c v hv
  have hev : tickEvs S task
      = fullChildTouch S (child_io_key_or_halt t).1 c := by
    rw [tickEvs, hw, hw2, haltEvs_nil hdef, fullChildTouch_eq_some hv]
    rfl
  have ht1 : (tickT S task).current_top = some t := by
    rw [tickT, hw, hw2]
    exact ht
  have hcc1 : (tickT S task).current_child
      = child_next S (child_io_key_or_halt t).1 c := by
    rw [tickT, hw, hw2]
  have hcp1 : (tickT S task).prev_tick_child = task.prev_tick_child := by
    rw [tickT, hw, hw2]
  constructor
  · intro k
    rw [hev, filter_fullChildTouch_top, List.nil_append,
      topFilterExp_some S task t ht k,
      topFilterExp_some S (tickT S task) t ht1 k]
  · intro r ck
    rw [hev, filter_fullChildTouch_child]
    by_cases hro : r = (child_io_key_or_halt t).1
    · rw [hro]
      rw [childFilterExp_at_owner S task t ht hdef hmemT ck,
        childFilterExp_at_owner S (tickT S task) t ht1 hdef hmemT ck]
      simp only [hcc, hcc1]
      cases hn : child_next S (child_io_key_or_halt t).1 c with
      | some c2 =>
        simp only [hn]
        by_cases hck0 : ck = []
        · rw [hck0]
          have hne : ¬(([] : Key) = c) := fun he => hcne he.symm
          rw [if_neg (by simp [hne])]
          simp
        · have hckd : decide (ck = ([] : Key)) = false := by simp [hck0]
          by_cases hckc : ck = c
          · rw [hckc]
            rw [if_pos (show True ∧ c = c from ⟨trivial, rfl⟩)]
            have hlt2 : keyLtB c c2 = true := child_next_gt hn
            have hle2 : keyLeB c2 c = false := keyLeB_false_of_lt hlt2
            have hle : keyLeB c c = true := keyLeB_refl c
            have hcd : decide (c = ([] : Key)) = false := by simp [hcne]
            have hmmd : decide (c ∈ childKeysOf S
                (child_io_key_or_halt t).1) = true := by simp [hmm]
            simp [hcd, hle2, hle, hmmd]
          · rw [if_neg (by simp [hckc]), List.nil_append]
            simp only [hckd, Bool.false_eq_true, if_false]
            by_cases hm2 : ck ∈ childKeysOf S (child_io_key_or_halt t).1
            · have hn' : nextKeyL (childKeysOf S
                  (child_io_key_or_halt t).1) c = some c2 := hn
              have hzone := nextKeyL_zone hn' hm2
              by_cases hlt : keyLtB c ck = true
              · have hA : keyLeB c ck = true := keyLeB_iff.mpr (Or.inr hlt)
                have hB : keyLeB c2 ck = true := by
                  rcases hzone.mp hlt with hx | hx
                  · exact keyLeB_iff.mpr (Or.inr hx)
                  · exact keyLeB_iff.mpr (Or.inl hx)
                simp [hA, hB]
              · rw [Bool.not_eq_true] at hlt
                have hA : keyLeB c ck = false := by
                  by_contra hcon
                  rw [Bool.not_eq_false] at hcon
                  rcases keyLeB_iff.mp hcon with he | hx
                  · exact hckc he.symm
                  · rw [hx] at hlt
                    cases hlt
                have hB : keyLeB c2 ck = false := by
                  by_contra hcon
                  rw [Bool.not_eq_false] at hcon
                  have hup : keyLtB c ck = true := by
                    rcases keyLeB_iff.mp hcon with he | hx
                    · exact hzone.mpr (Or.inr he)
                    · exact hzone.mpr (Or.inl hx)
                  rw [hup] at hlt
                  cases hlt
                simp [hA, hB]
            · have hm2d : decide (ck ∈ childKeysOf S
                  (child_io_key_or_halt t).1) = false := by simp [hm2]
              simp [hm2d]
      | none =>
        simp only [hn, hcp1, hprev]
        by_cases hckc : ck = c
        · rw [hckc]
          rw [if_pos (show True ∧ c = c from ⟨trivial, rfl⟩)]
          have hcd : decide (c = ([] : Key)) = false := by simp [hcne]
          have hle : keyLeB c c = true := keyLeB_refl c
          have hmmd : decide (c ∈ childKeysOf S
              (child_io_key_or_halt t).1) = true := by simp [hmm]
          simp [hcd, hle, hmmd]
        · rw [if_neg (by simp [hckc]), List.nil_append]
          by_cases hck0 : ck = []
          · rw [hck0]
            simp
          · have hckd : decide (ck = ([] : Key)) = false := by simp [hck0]
            by_cases hm2 : ck ∈ childKeysOf S (child_io_key_or_halt t).1
            · have hn' : nextKeyL (childKeysOf S
                  (child_io_key_or_halt t).1) c = none := hn
              have hz := nextKeyL_none hn' ck hm2
              have hA : keyLeB c ck = false := by
                by_contra hcon
                rw [Bool.not_eq_false] at hcon
                rcases keyLeB_iff.mp hcon with he | hx
                · exact hckc he.symm
                · rw [hz] at hx
                  cases hx
              simp [hckd, hA]
            · have hm2d : decide (ck ∈ childKeysOf S
                  (child_io_key_or_halt t).1) = false := by simp [hm2]
              simp [hckd, hm2d]
    · rw [if_neg (by simp [hro]), List.nil_append]
      exact childFilterExp_same_top S t task (tickT S task) ht ht1 r ck
        (fun he => hro (List.append_cancel_left
          (he.trans (default_root_eq hdef).symm)))

/-- A tick preserves the cursor invariant over a well-formed store. -/
theorem invC1_tick (S : Store) (task : MigrationTask)
    (hWF : WFStore S) (hInv : InvC1 S task) : InvC1 S (tickT S task) := by
  cases ht : task.current_top with
  | none =>
    have hc : task.current_child = none := hInv.top_absent ht
    have hT : tickT S task = task := by
      rw [tickT, tick_eq_done S task ht hc]
    rw [hT]
    exact hInv
  | some t =>
    cases hcc : task.current_child with
    | some c =>
      obtain ⟨hprev, hcne, t', ht', hmm0⟩ := hInv.child_mem c hcc
      rw [ht] at ht'
      have heq : t = t' := Option.some_inj.mp ht'
      have hmm : c ∈ childKeysOf S (child_io_key_or_halt t).1 := by
        rw [heq]
        exact hmm0
      obtain ⟨v, hv⟩ := childKeys_mem_get hmm
      have hT : tickT S task = { task with
          current_child := child_next S (child_io_key_or_halt t).1 c
          dyn_child_items := satInc task.dyn_child_items
          dyn_size := satAdd task.dyn_size v.length } := by
        rw [tickT, tick_eq_walk S task t c ht hcc,
          migrate_child_eq_some S task t c v hv]
      rw [hT]
      refine ⟨?_, ?_, ?_, ?_⟩
      · intro h0
        have h0' : task.current_top = none := h0
        rw [ht] at h0'
        cases h0'
      · intro t1 ht1 hcr1
        exact hInv.top_marker t1 ht1 hcr1
      · intro c' hc'
        have hc'' : child_next S (child_io_key_or_halt t).1 c = some c' := hc'
        have hgt : keyLtB c c' = true := child_next_gt hc''
        have hnil : keyLtB [] c' = true :=
          keyLt_trans (keyLt_nil_of_ne hcne) hgt
        refine ⟨hprev, ?_, t, ht, (nextKeyL_some_mem hc'').1⟩
        intro he
        rw [he, keyLt_nil_right] at hnil
        cases hnil
      · intro hp
        exact hInv.prev_root hp
    | none =>
      cases hp : task.prev_tick_child with
      | true =>
        obtain ⟨t2, ht2, hdef0, hmemT0⟩ := hInv.prev_root hp
        rw [ht] at ht2
        have heq2 : t = t2 := Option.some_inj.mp ht2
        have hdef : isPre defaultMarker t = true := by
          rw [heq2]
          exact hdef0
        have hw := tick_eq_ascend S task t ht hcc hdef hp
        obtain ⟨_, hct, hcc2, hcp2⟩ :=
          migrate_top_parts S { task with prev_tick_child := false } t
        have hT : tickT S task
            = (migrate_top S { task with prev_tick_child := false } t).1 := by
          rw [tickT, hw]
        rw [hT]
        refine ⟨?_, ?_, ?_, ?_⟩
        · intro _
          rw [hcc2]
          exact hcc
        · intro t1 ht1 hcr1
          rw [hct] at ht1
          have ht1' : nextKeyL (topKeys S) t = some t1 := ht1
          have hm : t1 ∈ topKeys S := (nextKeyL_some_mem ht1').1
          exact ⟨hWF.marker_default t1 hm hcr1, hm⟩
        · intro c' hc'
          rw [hcc2] at hc'
          have hc'' : task.current_child = some c' := hc'
          rw [hcc] at hc''
          cases hc''
        · intro hp1
          rw [hcp2] at hp1
          cases hp1
      | false =>
        cases hcr : isPre defaultMarker t with
        | false =>
          have hw := tick_eq_top S task t ht hcc hcr hp
          obtain ⟨_, hct, hcc2, hcp2⟩ := migrate_top_parts S task t
          have hT : tickT S task = (migrate_top S task t).1 := by
            rw [tickT, hw]
          rw [hT]
          refine ⟨?_, ?_, ?_, ?_⟩
          · intro _
            rw [hcc2]
            exact hcc
          · intro t1 ht1 hcr1
            rw [hct] at ht1
            have ht1' : nextKeyL (topKeys S) t = some t1 := ht1
            have hm : t1 ∈ topKeys S := (nextKeyL_some_mem ht1').1
            exact ⟨hWF.marker_default t1 hm hcr1, hm⟩
          · intro c' hc'
            rw [hcc2] at hc'
            rw [hcc] at hc'
            cases hc'
          · intro hp1
            rw [hcp2] at hp1
            rw [hp] at hp1
            cases hp1
        | true =>
          obtain ⟨hdef, hmemT⟩ :=
            hInv.top_marker t ht (childMarker_of_defaultMarker hcr)
          cases hn : child_next S (child_io_key_or_halt t).1 [] with
          | some c1 =>
            have hT : tickT S task = { task with
                current_child := some c1, prev_tick_child := true } := by
              rw [tickT, tick_eq_descend_some S task t c1 ht hcc hcr hp hn]
            rw [hT]
            refine ⟨?_, ?_, ?_, ?_⟩
            · intro h0
              have h0' : task.current_top = none := h0
              rw [ht] at h0'
              cases h0'
            · intro t1 ht1 hcr1
              exact hInv.top_marker t1 ht1 hcr1
            · intro c' hc'
              have hc'' : some c1 = some c' := hc'
              have hcc1 : c1 = c' := Option.some_inj.mp hc''
              have hgt : keyLtB [] c1 = true := child_next_gt hn
              refine ⟨rfl, ?_, t, ht, ?_⟩
              · intro he
                rw [hcc1, he, keyLt_irrefl] at hgt
                cases hgt
              · rw [← hcc1]
                exact (nextKeyL_some_mem hn).1
            · intro _
              exact ⟨t, ht, hdef, hmemT⟩
          | none =>
            have hT : tickT S task
                = { task with prev_tick_child := true } := by
              rw [tickT, tick_eq_descend_none S task t ht hcc hcr hp hn]
            rw [hT]
            refine ⟨?_, ?_, ?_, ?_⟩
            · intro h0
              have h0' : task.current_top = none := h0
              rw [ht] at h0'
              cases h0'
            · intro t1 ht1 hcr1
              exact hInv.top_marker t1 ht1 hcr1
            · intro c' hc'
              have hc'' : task.current_child = some c' := hc'
              rw [hcc] at hc''
              cases hc''
            · intro _
              exact ⟨t, ht, hdef, hmemT⟩

/-- Full step lemma: under the invariant, one tick consumes exactly its
events from every per-key expected filter. -/
theorem tick_step_filters (S : Store) (task : MigrationTask)
    (hInv : InvC1 S task) :
    (∀ k, (tickEvs S task).filter (touchTopB k) ++
        topFilterExp S (tickT S task) k = topFilterExp S task k) ∧
    (∀ r ck, (tickEvs S task).filter (touchChildB r ck) ++
        childFilterExp S (tickT S task) r ck = childFilterExp S task r ck) := by
  cases ht : task.current_top with
  | none =>
    have hc : task.current_child = none := hInv.top_absent ht
    have hw := tick_eq_done S task ht hc
    have hT : tickT S task = task := by rw [tickT, hw]
    have hE : tickEvs S task = [] := by rw [tickEvs, hw]
    rw [hT, hE]
    exact ⟨fun k => by simp, fun r ck => by simp⟩
  | some t =>
    cases hcc : task.current_child with
    | some c => exact tick_step_walk S task t c hInv ht hcc
    | none =>
      cases hp : task.prev_tick_child with
      | true =>
        obtain ⟨t2, ht2, hdef0, _⟩ := hInv.prev_root hp
        rw [ht] at ht2
        have heq2 : t = t2 := Option.some_inj.mp ht2
        have hdef : isPre defaultMarker t = true := by
          rw [heq2]
          exact hdef0
        exact tick_step_top_like S task t ht hcc (Or.inr ⟨hdef, hp⟩)
      | false =>
        cases hcr : isPre defaultMarker t with
        | false =>
          exact tick_step_top_like S task t ht hcc (Or.inl ⟨hcr, hp⟩)
        | true =>
          exact tick_step_descend S task t hInv ht hcc hcr hp

theorem traceN_succ_out (S : Store) (n : Nat) (task : MigrationTask) :
    traceN S (n + 1) task = tickEvs S task ++ traceN S n (tickT S task) := rfl

theorem invC1_tickN (S : Store) (hWF : WFStore S) :
    ∀ (n : Nat) (task : MigrationTask), InvC1 S task →
      InvC1 S (tickN S n task) := by
  intro n
  induction n with
  | zero => intro task hInv; exact hInv
  | succ n ih =>
    intro task hInv
    rw [tickN_succ_out]
    exact ih (tickT S task) (invC1_tick S task hWF hInv)

/-- Trace invariant: over any number of ticks, the events recorded so far
and the expected remainder at the reached cursor compose to the expected
events at the starting cursor, for every top key and every child key. -/
theorem filters_invariant (S : Store) (hWF : WFStore S) :
    ∀ (n : Nat) (task : MigrationTask), InvC1 S task →
    (∀ k, (traceN S n task).filter (touchTopB k) ++
        topFilterExp S (tickN S n task) k = topFilterExp S task k) ∧
    (∀ r ck, (traceN S n task).filter (touchChildB r ck) ++
        childFilterExp S (tickN S n task) r ck
          = childFilterExp S task r ck) := by
  intro n
  induction n with
  | zero =>
    intro task _
    exact ⟨fun k => by simp [traceN, tickN], fun r ck => by simp [traceN, tickN]⟩
  | succ n ih =>
    intro task hInv
    have hstep := tick_step_filters S task hInv
    have hrec := ih (tickT S task) (invC1_tick S task hWF hInv)
    constructor
    · intro k
      rw [tickN_succ_out, traceN_succ_out, List.filter_append,
        List.append_assoc, hrec.1 k]
      exact hstep.1 k
    · intro r ck
      rw [tickN_succ_out, traceN_succ_out, List.filter_append,
        List.append_assoc, hrec.2 r ck]
      exact hstep.2 r ck

theorem topFilterExp_congr (S : Store) (task task2 : MigrationTask)
    (k : Key) (h : task.current_top = task2.current_top) :
    topFilterExp S task k = topFilterExp S task2 k := by
  unfold topFilterExp
  rw [h]

theorem childFilterExp_congr (S : Store) (task task2 : MigrationTask)
    (r ck : Key) (h1 : task.current_top = task2.current_top)
    (h2 : task.current_child = task2.current_child)
    (h3 : task.prev_tick_child = task2.prev_tick_child) :
    childFilterExp S task r ck = childFilterExp S task2 r ck := by
  unfold childFilterExp
  rw [h1, h2, h3]

/-- One bounded-driver invocation: the store is unchanged, the invariant
is preserved, and the recorded events consume exactly the difference of
the expected filters. -/
theorem mue_filters (limits : MigrationLimits) (fuel : Nat) (S : Store)
    (task t' : MigrationTask) (S' : Store) (evs : List Ev) (n : Nat)
    (hWF : WFStore S) (hInv : InvC1 S task)
    (h : migrate_until_exhaustion limits fuel S task
      = some (t', S', evs, n)) :
    S' = S ∧ InvC1 S t' ∧
    (∀ k, evs.filter (touchTopB k) ++ topFilterExp S t' k
        = topFilterExp S task k) ∧
    (∀ r ck, evs.filter (touchChildB r ck) ++ childFilterExp S t' r ck
        = childFilterExp S task r ck) := by
  unfold migrate_until_exhaustion at h
  by_cases hz : limits.item = 0 ∨ limits.size = 0
  · rw [if_pos hz] at h
    simp only [Option.some.injEq, Prod.mk.injEq] at h
    obtain ⟨h1, h2, h3, _⟩ := h
    subst h1
    subst h2
    subst h3
    exact ⟨rfl, hInv, fun k => by simp, fun r ck => by simp⟩
  · rw [if_neg hz] at h
    cases hd : driverLoop limits fuel S task with
    | none =>
      rw [hd] at h
      cases h
    | some res =>
      obtain ⟨t0, S0, evs0, n0⟩ := res
      rw [hd] at h
      simp only [Option.some.injEq, Prod.mk.injEq] at h
      obtain ⟨h1, h2, h3, _⟩ := h
      obtain ⟨hS, htk, hevs, _⟩ := driverLoop_spec hd
      have hIN : InvC1 S (tickN S n0 task) := invC1_tickN S hWF n0 task hInv
      have hIN0 : InvC1 S t0 := by
        rw [htk]
        exact hIN
      have hF := filters_invariant S hWF n0 task hInv
      refine ⟨?_, ?_, ?_, ?_⟩
      · rw [← h2, hS]
      · rw [← h1]
        exact ⟨hIN0.top_absent, hIN0.top_marker, hIN0.child_mem,
          hIN0.prev_root⟩
      · intro k
        rw [← h3, ← h1, hevs,
          topFilterExp_congr S { t0 with size := satAdd t0.size t0.dyn_size, child_items := satAdd t0.child_items t0.dyn_child_items, top_items := satAdd t0.top_items t0.dyn_top_items } t0 k rfl, htk]
        exact hF.1 k
      · intro r ck
        rw [← h3, ← h1, hevs,
          childFilterExp_congr S { t0 with size := satAdd t0.size t0.dyn_size, child_items := satAdd t0.child_items t0.dyn_child_items, top_items := satAdd t0.top_items t0.dyn_top_items } t0 r ck rfl rfl rfl, htk]
        exact hF.2 r ck

/-- The trace invariant composes across a sequence of invocations. -/
theorem runSeq_filters (S : Store) (hWF : WFStore S) :
    ∀ (args : List (MigrationLimits × Nat)) (task t' : MigrationTask)
      (S' : Store) (evs : List Ev),
      InvC1 S task → runSeq args S task = some (t', S', evs) →
      S' = S ∧ InvC1 S t' ∧
      (∀ k, evs.filter (touchTopB k) ++ topFilterExp S t' k
          = topFilterExp S task k) ∧
      (∀ r ck, evs.filter (touchChildB r ck) ++ childFilterExp S t' r ck
          = childFilterExp S task r ck) := by
  intro args
  induction args with
  | nil =>
    intro task t' S' evs hInv h
    simp only [runSeq, Option.some.injEq, Prod.mk.injEq] at h
    obtain ⟨h1, h2, h3⟩ := h
    subst h1
    subst h2
    subst h3
    exact ⟨rfl, hInv, fun k => by simp, fun r ck => by simp⟩
  | cons hd rest ih =>
    obtain ⟨l, f⟩ := hd
    intro task t' S' evs hInv h
    simp only [runSeq] at h
    cases hm : migrate_until_exhaustion l f S task with
    | none =>
      rw [hm] at h
      cases h
    | some res =>
      obtain ⟨t1, S1, evs1, n1⟩ := res
      rw [hm] at h
      simp only [] at h
      obtain ⟨hS1, hI1, hT1, hCx1⟩ :=
        mue_filters l f S task t1 S1 evs1 n1 hWF hInv hm
      rw [hS1] at h
      cases hr : runSeq rest S t1 with
      | none =>
        rw [hr] at h
        cases h
      | some res2 =>
        obtain ⟨t2, S2, evs2⟩ := res2
        rw [hr] at h
        simp only [Option.some.injEq, Prod.mk.injEq] at h
        obtain ⟨h1, h2, h3⟩ := h
        obtain ⟨hS2, hI2, hT2, hCx2⟩ := ih t1 t2 S2 evs2 hI1 hr
        subst h1
        subst h2
        subst h3
        refine ⟨hS2, hI2, ?_, ?_⟩
        · intro k
          rw [List.filter_append, List.append_assoc, hT2 k]
          exact hT1 k
        · intro r ck
          rw [List.filter_append, List.append_assoc, hCx2 r ck]
          exact hCx1 r ck

/-- The fresh task satisfies the invariant over any store. -/
theorem invC1_default (S : Store) : InvC1 S defaultTask := by
  refine ⟨?_, ?_, ?_, ?_⟩
  · intro h
    exact Option.noConfusion (show some ([] : Key) = none from h)
  · intro t ht1 hcr1
    have h' : some ([] : Key) = some t := ht1
    have ht' : t = [] := (Option.some_inj.mp h').symm
    rw [ht'] at hcr1
    exact absurd hcr1 (by decide)
  · intro c hc1
    exact Option.noConfusion (show (none : Option Key) = some c from hc1)
  · intro hp
    exact Bool.noConfusion (show false = true from hp)

theorem topFilterExp_default (S : Store) (k : Key) (hk : k ∈ topKeys S) :
    topFilterExp S defaultTask k = fullTopTouch S k := by
  rw [topFilterExp_some S defaultTask [] rfl k]
  have h1 : keyLeB [] k = true := by
    rw [keyLeB, keyLt_nil_right]
    rfl
  simp [h1, hk]

theorem defaultMarker_append_ne_nil (r : Key) : defaultMarker ++ r ≠ [] := by
  intro he
  have := (List.append_eq_nil.mp he).1
  rw [defaultMarker, childMarker] at this
  cases this

theorem childFilterExp_default (S : Store) (r ck : Key)
    (hown : (defaultMarker ++ r) ∈ topKeys S)
    (hck : ck ∈ childKeysOf S r) (hne : ck ≠ []) :
    childFilterExp S defaultTask r ck = fullChildTouch S r ck := by
  rw [childFilterExp_some S defaultTask [] rfl r ck]
  have hlt : keyLtB [] (defaultMarker ++ r) = true :=
    keyLt_nil_of_ne (defaultMarker_append_ne_nil r)
  simp [hown, hlt, childAllPending, hne, hck]

theorem childFilterExp_default_nil (S : Store) (r : Key)
    (hown : (defaultMarker ++ r) ∈ topKeys S) :
    childFilterExp S defaultTask r [] = probeTouch S r := by
  rw [childFilterExp_some S defaultTask [] rfl r []]
  have hlt : keyLtB [] (defaultMarker ++ r) = true :=
    keyLt_nil_of_ne (defaultMarker_append_ne_nil r)
  simp [hown, hlt, childAllPending]

theorem wTop_mem_fullTopTouch {S : Store} {k k' : Key} {v : Value}
    (h : Ev.wTop k' v ∈ fullTopTouch S k) : top_get S k' = some v := by
  unfold fullTopTouch at h
  cases hg : top_get S k with
  | none =>
    rw [hg] at h
    simp at h
  | some d =>
    rw [hg] at h
    simp at h
    obtain ⟨h1, h2⟩ := h
    rw [h1, h2]
    exact hg

theorem wChild_mem_fullChildTouch {S : Store} {r c r' c' : Key} {v : Value}
    (h : Ev.wChild r' c' v ∈ fullChildTouch S r c) :
    child_get S r' c' = some v := by
  unfold fullChildTouch at h
  cases hg : child_get S r c with
  | none =>
    rw [hg] at h
    simp at h
  | some d =>
    rw [hg] at h
    simp at h
    obtain ⟨h1, h2, h3⟩ := h
    rw [h1, h2, h3]
    exact hg

theorem wChild_mem_childAllPending {S : Store} {r ck r' c' : Key}
    {v : Value} (h : Ev.wChild r' c' v ∈ childAllPending S r ck) :
    child_get S r' c' = some v := by
  unfold childAllPending at h
  split at h
  · simp [probeTouch] at h
  · split at h
    · exact wChild_mem_fullChildTouch h
    · simp at h

theorem wTop_mem_topFilterExp_default {S : Store} {k k' : Key} {v : Value}
    (h : Ev.wTop k' v ∈ topFilterExp S defaultTask k) :
    top_get S k' = some v := by
  rw [topFilterExp_some S defaultTask [] rfl k] at h
  split at h
  · exact wTop_mem_fullTopTouch h
  · simp at h

theorem wChild_mem_childFilterExp_default {S : Store} {r ck r' c' : Key}
    {v : Value} (h : Ev.wChild r' c' v ∈ childFilterExp S defaultTask r ck) :
    child_get S r' c' = some v := by
  rw [childFilterExp_some S defaultTask [] rfl r ck] at h
  simp only [show defaultTask.current_child = none from rfl,
    show defaultTask.prev_tick_child = false from rfl] at h
  split at h
  · split at h
    · exact wChild_mem_childAllPending h
    · split at h
      · exact wChild_mem_childAllPending h
      · simp at h
  · simp at h

/-- C1: for every well-formed initial store and every sequence of
bounded-driver invocations that drives the fresh cursor to the finished
state (`current_top = none`), the store content is unchanged (so it
equals the content loaded from scratch under the target format), every
top key is read and then written back exactly once with the value read,
every nonempty child key of a present namespace is read and then written
back exactly once with the value read, and every write in the trace
writes an existing key with its existing value (no new keys are
created).  Amended from the spec claim, which asserts this for *every*
key present: the empty child key of a populated child namespace is only
probed (read) by the descend step and is never written back, so the
claim fails for it; the `C1_counterexample` theorem exhibits this. -/
theorem C1_touch_complete_amended (S : Store)
    (args : List (MigrationLimits × Nat)) (t' : MigrationTask) (S' : Store)
    (evs : List Ev) (hWF : WFStore S)
    (hrun : runSeq args S defaultTask = some (t', S', evs))
    (hdone : t'.current_top = none) :
    S' = S ∧
    (∀ k, k ∈ topKeys S → evs.filter (touchTopB k) = fullTopTouch S k) ∧
    (∀ r ck, ck ∈ childKeysOf S r → ck ≠ [] →
        evs.filter (touchChildB r ck) = fullChildTouch S r ck) ∧
    (∀ r, (defaultMarker ++ r) ∈ topKeys S →
        evs.filter (touchChildB r []) = probeTouch S r) ∧
    (∀ k v, Ev.wTop k v ∈ evs → top_get S k = some v) ∧
    (∀ r ck v, Ev.wChild r ck v ∈ evs → child_get S r ck = some v) := by
  obtain ⟨hS, _, hT, hC⟩ :=
    runSeq_filters S hWF args defaultTask t' S' evs (invC1_default S) hrun
  have hTeq : ∀ k, evs.filter (touchTopB k)
      = topFilterExp S defaultTask k := by
    intro k
    have h := hT k
    rw [topFilterExp_none S t' hdone k, List.append_nil] at h
    exact h
  have hCeq : ∀ r ck, evs.filter (touchChildB r ck)
      = childFilterExp S defaultTask r ck := by
    intro r ck
    have h := hC r ck
    rw [childFilterExp_none S t' hdone r ck, List.append_nil] at h
    exact h
  refine ⟨hS, ?_, ?_, ?_, ?_, ?_⟩
  · intro k hk
    rw [hTeq k, topFilterExp_default S k hk]
  · intro r ck hck hne
    have hown : (defaultMarker ++ r) ∈ topKeys S := by
      apply hWF.owner_present
      intro hnil
      rw [childKeysOf, hnil] at hck
      cases hck
    rw [hCeq r ck, childFilterExp_default S r ck hown hck hne]
  · intro r hown
    rw [hCeq r [], childFilterExp_default_nil S r hown]
  · intro k v hv
    have hmem : Ev.wTop k v ∈ evs.filter (touchTopB k) :=
      List.mem_filter.mpr ⟨hv, by simp [touchTopB]⟩
    rw [hTeq k] at hmem
    exact wTop_mem_topFilterExp_default hmem
  · intro r ck v hv
    have hmem : Ev.wChild r ck v ∈ evs.filter (touchChildB r ck) :=
      List.mem_filter.mpr ⟨hv, by simp [touchChildB]⟩
    rw [hCeq r ck] at hmem
    exact wChild_mem_childFilterExp_default hmem

/-- `exStore` is well formed: its only namespace owner is present, and
its only child-root top key carries the default marker. -/
theorem exStore_wf : WFStore exStore := by
  refine ⟨?_, ?_⟩
  · intro r h
    cases hl : lookupA exStore.children r with
    | none =>
      rw [childNS, hl] at h
      simp at h
    | some l =>
      have hr : r ∈ (exStore.children).map Prod.fst :=
        lookupA_some_mem_fst hl
      have hr1 : r = [1] := by simpa [exStore] using hr
      rw [hr1]
      decide
  · intro k hk _
    have hk1 : k = oKey := by simpa [exStore, topKeys] using hk
    rw [hk1]
    decide

/-- Counterexample to the unamended C1: on `emptyChildStore` the driver
exhausts fully in one invocation (the final top cursor is absent and the
store is unchanged), the empty key `[]` is present in child namespace
`[1]` of the initial store, yet the only event ever recorded for it is a
single read — it is never written back, refuting "every key present in
the initial store has been read and then written back exactly once". -/
theorem C1_counterexample :
    migrate_until_exhaustion ⟨100, 10⟩ 10 emptyChildStore defaultTask
      = some (⟨none, none, false, 2, 0, 1, 1, 2, 0⟩, emptyChildStore,
        [Ev.rTop [] none, Ev.rChild [1] [] (some [5, 5]),
          Ev.rTop oKey (some [7]), Ev.wTop oKey [7]], 3) ∧
    [] ∈ childKeysOf emptyChildStore [1] ∧
    ([Ev.rTop [] none, Ev.rChild [1] [] (some [5, 5]),
        Ev.rTop oKey (some [7]),
        Ev.wTop oKey [7]].filter (touchChildB [1] [])
      = [Ev.rChild [1] [] (some [5, 5])]) := by
  refine ⟨by decide, by decide, by decide⟩

/-- Witness for the amended C1 on the concrete store `exStore`. -/
theorem C1_witness :
    runSeq [(⟨100, 10⟩, 10)] exStore defaultTask
      = some (exRunTask, exStore, exRunEvs) ∧
    exRunEvs.filter (touchTopB oKey) = fullTopTouch exStore oKey ∧
    exRunEvs.filter (touchChildB [1] [2]) = fullChildTouch exStore [1] [2] ∧
    exRunEvs.filter (touchChildB [1] []) = probeTouch exStore [1] := by
  have hrun : runSeq [(⟨100, 10⟩, 10)] exStore defaultTask
      = some (exRunTask, exStore, exRunEvs) := by decide
  have h := C1_touch_complete_amended exStore [(⟨100, 10⟩, 10)] exRunTask
    exStore exRunEvs exStore_wf hrun (by decide)
  exact ⟨hrun, h.2.1 oKey (by decide),
    h.2.2.1 [1] [2] (by decide) (by decide), h.2.2.2.1 [1] (by decide)⟩

end STM
